import Mathlib

/-!
Verification of the FlexLog concurrent logging library core.

This file gives a shallow embedding, in Lean 4, of the components of the
FlexLog C++ source that the verified properties speak about:

* the `Level` enumeration (`Level.h`);
* the small-buffer-optimised `StringStorage` (`Core/StringStorage.cpp`);
* the copy-on-write `RCUList` (`Core/RCUList.h`);
* the `Logger::Log` front end (`Logger.cpp`);
* the hazard-pointer domain cleanup (`Core/HazardPointer.cpp`);
* the `MessagePool` (`Core/MessagePool.cpp`);
* the Vyukov-style bounded `MessageQueue` (`Core/MessageQueue.cpp`);
* the per-worker priority queue of `LoggerThreadPool` (`Core/LoggerThreadPool.h/.cpp`);
* the `LogManager` lifecycle state machine and logger registry (`LogManager.cpp`).

The embedding is sequential: each C++ member function becomes a pure Lean
function from an explicit state value to an updated state value, following
the source line by line.  Compare-and-swap loops are embedded as their
uncontended (single-step) execution, which is the behaviour the functions
have when run without interference; atomic memory orderings have no
sequential content and are dropped.  C++ `char` is modelled as Lean `Char`
(one list element per byte), raw pointers as explicit locations or integer
identities, and machine counters as `Nat` (the 64-bit counters in question
only wrap after 2^64 operations, which no execution modelled here reaches).
-/

namespace FlexLog

/-! ### Level (`Level.h`)

The C++ enumeration `Level : uint8_t { Trace = 0, Debug, Info, Warn, Error,
Fatal, Off }` with its comparison operators, which compare the underlying
`uint8_t` values. -/

inductive Level where
  | Trace
  | Debug
  | Info
  | Warn
  | Error
  | Fatal
  | Off
deriving DecidableEq, Repr

/-- Underlying integer value of a `Level` (`static_cast<uint8_t>`). -/
def Level.toNat : Level → Nat
  | .Trace => 0
  | .Debug => 1
  | .Info => 2
  | .Warn => 3
  | .Error => 4
  | .Fatal => 5
  | .Off => 6

/-- The C++ `operator<` on `Level` compares the underlying `uint8_t`s. -/
def Level.ltb (a b : Level) : Bool := decide (a.toNat < b.toNat)

/-- The C++ `operator>=` on `Level` compares the underlying `uint8_t`s. -/
def Level.geb (a b : Level) : Bool := decide (b.toNat ≤ a.toNat)

/-! ### Message state (`Message.h`) -/

inductive MessageState where
  | Pooled
  | Active
  | Releasing
deriving DecidableEq, Repr

/-! ### StringStorage (`Core/StringStorage.h/.cpp`)

The C++ object holds a 64-byte inline buffer, an optional heap buffer and a
`std::string_view` into one of the two.  The view is modelled by the flag
`viewInline` (is the view data pointer inside this object's inline
buffer?), together with its length `viewLen`; `heapBuffer = some l` models
a heap allocation of exactly `l.length` bytes holding `l`. -/

def INLINE_CAPACITY : Nat := 64

/-- The result of `memcpy(dst, src, n)` on byte buffers. -/
def memcpy (dst src : List Char) (n : Nat) : List Char :=
  src.take n ++ dst.drop n

structure StringStorage where
  inlineBuffer : List Char
  heapBuffer : Option (List Char)
  viewInline : Bool
  viewLen : Nat
deriving DecidableEq, Repr

/-- The default `StringStorage` constructor: zero-filled inline buffer, no
heap buffer, empty default-constructed view (whose data pointer is null and
hence not inside the inline buffer). -/
def StringStorage.init : StringStorage :=
  { inlineBuffer := List.replicate INLINE_CAPACITY (Char.ofNat 0)
    heapBuffer := none
    viewInline := false
    viewLen := 0 }

instance : Inhabited StringStorage := ⟨StringStorage.init⟩

/-- Embedding of `StringStorage::Store`.  Strings of fewer than
`INLINE_CAPACITY` bytes are copied into the inline buffer (with a null
terminator written when it also fits) and the view points there; longer
strings are copied into a fresh heap allocation of exactly `str.size()`
bytes and the view points at the heap buffer. -/
def StringStorage.Store (st : StringStorage) (str : List Char) : StringStorage :=
  if str.length < INLINE_CAPACITY then
    let buf := memcpy st.inlineBuffer str str.length
    let buf := if str.length < INLINE_CAPACITY - 1 then buf.set str.length (Char.ofNat 0) else buf
    { st with inlineBuffer := buf, viewInline := true, viewLen := str.length }
  else
    { st with heapBuffer := some str, viewInline := false, viewLen := str.length }

/-- Embedding of the static `StringStorage::Create`: default-construct and
`Store`. -/
def StringStorage.Create (str : List Char) : StringStorage :=
  StringStorage.init.Store str

/-- Embedding of `StringStorage::View`: the bytes the stored view refers
to. -/
def StringStorage.View (st : StringStorage) : List Char :=
  if st.viewInline then st.inlineBuffer.take st.viewLen
  else (st.heapBuffer.getD []).take st.viewLen

/-- Embedding of `StringStorage::IsInline`: does the view's data pointer
lie inside this object's inline buffer? -/
def StringStorage.IsInline (st : StringStorage) : Bool := st.viewInline

/-! ### RCUList (`Core/RCUList.h`)

The list publishes an atomic pointer to an immutable `Node { items }`, or
null.  The sequential state is therefore `Option (List T)`: `none` for a
null head, `some items` for a published node.  `Add` and `Remove` are the
uncontended executions of the CAS loops. -/

abbrev RCUList (T : Type) : Type := Option (List T)

/-- The item sequence a reader observes: a null head reads as the empty
span. -/
def RCUList.items {T : Type} (l : RCUList T) : List T := l.getD []

/-- Embedding of `RCUList::Add`: publish a new node holding the old items
plus `item`; an old null head contributes an empty vector. -/
def RCUList.Add {T : Type} (item : T) (l : RCUList T) : RCUList T :=
  some (l.getD [] ++ [item])

/-- Embedding of `RCUList::Remove`: return false on a null or empty head,
or when no entry compares equal to `item`; otherwise publish a new node
holding every old entry that does not compare equal to `item` (the C++
copy loop pushes every `existingItem` with `!(existingItem == item)`). -/
def RCUList.Remove {T : Type} [DecidableEq T] (item : T) (l : RCUList T) :
    Bool × RCUList T :=
  match l with
  | none => (false, none)
  | some items =>
    if items.isEmpty then (false, some items)
    else if decide (item ∈ items) then
      (true, some (items.filter (fun y => !decide (y = item))))
    else (false, some items)

/-- Modelled from the spec: the spec's `remove(item)` "build[s a] new node
omitting the first matching entry", i.e. erases only the first occurrence.
This definition exists solely to be compared against the source's
`RCUList.Remove`. -/
def removeFirstSpec {T : Type} [DecidableEq T] (item : T) (l : List T) : List T :=
  l.eraseP (fun y => decide (y = item))

/-! ### StructuredData and Message (`Format/Structured/StructuredData.h`, `Message.h`)

Only the shape of the structured-data map matters here: it is a container
of keyed values whose `Clear` empties it and which is copied wholesale into
a message.  Keys are byte strings and values are left abstract. -/

abbrev StructuredData : Type := List (List Char × Nat)

/-- Embedding of the `Message` record (`Message.h`).  The borrowed
`logger` back-pointer is modelled by the owning logger's integer identity;
`timestamp` and `sourceLocation` are opaque scalars. -/
structure Message where
  timestamp : Nat := 0
  name : List Char := []
  level : Level := Level.Info
  message : List Char := []
  sourceLocation : Nat := 0
  messageStorage : StringStorage := StringStorage.init
  logger : Option Nat := none
  structuredData : StructuredData := []
  refCount : Nat := 0
  state : MessageState := MessageState.Pooled
deriving DecidableEq

instance : Inhabited Message := ⟨{}⟩

/-! ### Logger (`Logger.h/.cpp`)

Only the fields `Logger::Log` reads are modelled: the owned name, the
atomic level, and the logger's identity (for the message back-pointer). -/

structure Logger where
  id : Nat
  name : List Char
  level : Level
deriving DecidableEq

/-- Embedding of `Logger::CreateMessage`: populate a freshly acquired pool
message.  `pm` is the message returned by `MessagePool::Acquire`, `now`
the sampled clock. -/
def Logger.CreateMessage (lg : Logger) (pm : Message) (msg : List Char)
    (level : Level) (loc now : Nat) : Message :=
  { pm with
    timestamp := now
    name := lg.name
    level := level
    sourceLocation := loc
    messageStorage := StringStorage.Create msg
    message := (StringStorage.Create msg).View
    logger := some lg.id }

/-- Embedding of `Logger::CreateStructuredMessage`: as `CreateMessage`,
additionally copying the structured data. -/
def Logger.CreateStructuredMessage (lg : Logger) (pm : Message) (msg : List Char)
    (data : StructuredData) (level : Level) (loc now : Nat) : Message :=
  { lg.CreateMessage pm msg level loc now with structuredData := data }

/-- Embedding of the plain overload `Logger::Log(msg, level, location)`.
The first component is the returned `bool`; the second is the message
constructed and enqueued on success (`none` when the call rejected without
acquiring a message).  Pool acquisition never fails (see
`MessagePool.Acquire` below), so the `!logMessage` branch of the source is
unreachable. -/
def Logger.Log (lg : Logger) (pm : Message) (msg : List Char) (level : Level)
    (loc now : Nat) : Bool × Option Message :=
  if msg.isEmpty || Level.ltb level lg.level || Level.geb level Level.Off then
    (false, none)
  else
    (true, some (lg.CreateMessage pm msg level loc now))

/-- Embedding of the structured-data overload `Logger::Log(msg, data,
level, location)`.  Note the source guards this overload only on the
level, not on `msg.empty()`. -/
def Logger.LogStructured (lg : Logger) (pm : Message) (msg : List Char)
    (data : StructuredData) (level : Level) (loc now : Nat) : Bool × Option Message :=
  if Level.ltb level lg.level || Level.geb level Level.Off then
    (false, none)
  else
    (true, some (lg.CreateStructuredMessage pm msg data level loc now))

/-- Embedding of `RCUList::Clear`: exchange the head for null and retire
the old node. -/
def RCUList.Clear {T : Type} (_ : RCUList T) : RCUList T := none

/-! ### Hazard pointer domain (`Core/HazardPointer.h/.cpp`)

The domain holds a fixed table of hazard slots (each an owning thread id
plus an announced pointer — only the pointer matters to `TryCleanup`), a
singly-linked retired list, and a retired-node counter.  Pointers are
modelled as `Nat` identities; a slot's announced pointer is `none` when
null.  `TryCleanup` is embedded as its single-threaded execution: the CAS
re-append loop succeeds on the first try against the empty list the
exchange left behind. -/

def MAX_HAZARD_POINTERS : Nat := 100

def SCAN_THRESHOLD : Nat := 1000

structure RetiredNode where
  pointer : Nat
  retireEpoch : Nat
deriving DecidableEq, Repr

structure HazardPointerDomain where
  hazardPointers : List (Option Nat)
  retiredList : List RetiredNode
  retiredCount : Nat
deriving DecidableEq, Repr

/-- The contract of `std::binary_search` over the sorted snapshot: true
exactly when an equal element is present. -/
def binary_search (sorted : List Nat) (p : Nat) : Bool := sorted.contains p

/-- Embedding of `HazardPointerDomain::TryCleanup`.  Reset the retired
count; snapshot every non-null hazard pointer into a sorted vector;
detach the whole retired list; walk it, prepending each node either to a
deferred list (pointer found in the snapshot by binary search) or to a
to-delete list (not found); republish the deferred list as the retired
list (bumping the count once when non-empty); finally run each to-delete
node's deleter.  The second component is the list of nodes deleted, in
deletion order. -/
def HazardPointerDomain.TryCleanup (dom : HazardPointerDomain) :
    HazardPointerDomain × List RetiredNode :=
  let hpList := (dom.hazardPointers.filterMap id).mergeSort (fun a b => decide (a ≤ b))
  let nodes := dom.retiredList
  if nodes.isEmpty then
    ({ dom with retiredList := [], retiredCount := 0 }, [])
  else
    let deferred := (nodes.filter (fun n => binary_search hpList n.pointer)).reverse
    let toDelete := (nodes.filter (fun n => !binary_search hpList n.pointer)).reverse
    ({ dom with
        retiredList := deferred
        retiredCount := if deferred.isEmpty then 0 else 1 },
      toDelete)

/-! ### MessagePool (`Core/MessagePool.h/.cpp`)

The pool owns a vector of chunks (each a parallel pair of a `Message`
array and an atomic in-use flag array) and a 64-slot thread-local cache.
The sequential model carries one thread's cache inside the pool state.  A
message pointer is a location: either a thread-local-cache index or a
(chunk, slot) pair; the C++ pointer-range tests (`message >= chunkStart &&
message < chunkEnd`, and the cache-bounds test) identify exactly the
location's constructor and indices. -/

def INITIAL_CAPACITY : Nat := 1024

def GROWTH_FACTOR : Nat := 2

def CACHE_SIZE : Nat := 64

structure Chunk where
  objects : List Message
  used : List Bool
deriving DecidableEq

instance : Inhabited Chunk := ⟨⟨[], []⟩⟩

/-- The `size` member of a chunk: the number of message slots. -/
def Chunk.size (ch : Chunk) : Nat := ch.objects.length

structure MessagePool where
  localMessages : List Message
  localUsed : List Bool
  localUsedCount : Nat
  chunks : List Chunk
  nextChunkIndex : Nat
  size : Nat
  capacity : Nat
  peakUsage : Nat
deriving DecidableEq

/-- A message pointer: a slot of the thread-local cache or a slot of a
shared chunk. -/
inductive MsgLoc where
  | tlc (i : Nat)
  | shared (c : Nat) (j : Nat)
deriving DecidableEq, Repr

/-- Read the message a location points at (a default message for an
out-of-range location, which no modelled execution dereferences). -/
def MessagePool.getMsg (s : MessagePool) (loc : MsgLoc) : Message :=
  match loc with
  | .tlc i => s.localMessages.getD i {}
  | .shared c j => (s.chunks.getD c default).objects.getD j {}

/-- Write the message a location points at (no-op out of range). -/
def MessagePool.setMsg (s : MessagePool) (loc : MsgLoc) (m : Message) : MessagePool :=
  match loc with
  | .tlc i => { s with localMessages := s.localMessages.set i m }
  | .shared c j =>
    let ch := s.chunks.getD c default
    { s with chunks := s.chunks.set c { ch with objects := ch.objects.set j m } }

/-- The in-use flag of a location's slot.  Out-of-range locations read as
in use, so that they never count as free slots. -/
def MessagePool.usedAt (s : MessagePool) (loc : MsgLoc) : Bool :=
  match loc with
  | .tlc i => s.localUsed.getD i true
  | .shared c j => (s.chunks.getD c default).used.getD j true

/-- Embedding of `MessagePool::ResetMessage`: clear storage, views,
level, logger and structured data, then publish `Pooled` state and zero
refcount.  (`timestamp` and `sourceLocation` are not reset by the
source.) -/
def MessagePool.ResetMessage (m : Message) : Message :=
  { m with
    messageStorage := StringStorage.init
    message := []
    name := []
    level := Level.Info
    logger := none
    structuredData := []
    state := MessageState.Pooled
    refCount := 0 }

/-- The store pair every successful acquisition path performs:
`state = Active` and `refCount = 1` on the claimed message. -/
def MessagePool.activate (s : MessagePool) (loc : MsgLoc) : MessagePool :=
  s.setMsg loc { s.getMsg loc with state := MessageState.Active, refCount := 1 }

/-- Embedding of `MessagePool::AcquireFromThreadLocalCache`: claim the
first free cache slot, if any. -/
def MessagePool.AcquireFromThreadLocalCache (s : MessagePool) : Option (Nat × MessagePool) :=
  match s.localUsed.findIdx? (fun b => !b) with
  | some i =>
    some (i, { s with
      localUsed := s.localUsed.set i true
      localUsedCount := s.localUsedCount + 1 })
  | none => none

/-- First free slot of a chunk among its first `limit` slots (the CAS
claim loop of the shared scans succeeds at the first free flag). -/
def Chunk.findFree (ch : Chunk) (limit : Nat) : Option Nat :=
  (ch.used.take limit).findIdx? (fun b => !b)

/-- The medium-path scan: probe `count` chunks round-robin starting at
index `start` (each probe at `start + i` is taken modulo the chunk
count), scanning at most the first 16 slots of each chunk. -/
def MessagePool.scanChunksFrom (chunks : List Chunk) (start : Nat) : Nat → Option (Nat × Nat)
  | 0 => none
  | Nat.succ k =>
    let ci := start % chunks.length
    match (chunks.getD ci default).findFree (min (chunks.getD ci default).size 16) with
    | some j => some (ci, j)
    | none => MessagePool.scanChunksFrom chunks (start + 1) k

/-- The slow-path re-scan: every slot of every chunk, in order. -/
def MessagePool.scanAllChunks : List Chunk → Option (Nat × Nat)
  | [] => none
  | ch :: rest =>
    match ch.used.findIdx? (fun b => !b) with
    | some j => some (0, j)
    | none =>
      match MessagePool.scanAllChunks rest with
      | some (c, j) => some (c + 1, j)
      | none => none

/-- Mark a shared slot in use and bump the size counter; the medium and
growth paths additionally update the peak-usage statistic. -/
def MessagePool.claimShared (s : MessagePool) (c j : Nat) (updatePeak : Bool) : MessagePool :=
  let ch := s.chunks.getD c default
  let s1 := { s with
    chunks := s.chunks.set c { ch with used := ch.used.set j true }
    size := s.size + 1 }
  if updatePeak then
    if s1.size > s1.peakUsage then { s1 with peakUsage := s1.size } else s1
  else s1

/-- A freshly `InitializeChunk`ed chunk: default-constructed messages,
all slots unused. -/
def MessagePool.freshChunk (n : Nat) : Chunk :=
  { objects := List.replicate n {}, used := List.replicate n false }

/-- Embedding of `MessagePool::Acquire`.  Fast path: thread-local cache.
Medium path: lock-free round-robin scan over the first 16 slots of each
chunk.  Slow path under the chunk mutex: re-check the cache, re-scan
every slot of every chunk, and otherwise allocate a new chunk of
`last.size * GROWTH_FACTOR` slots and claim its slot 0.  Every successful
claim stores `Active` state and refcount 1. -/
def MessagePool.Acquire (s : MessagePool) : MsgLoc × MessagePool :=
  match s.AcquireFromThreadLocalCache with
  | some (i, s1) => (MsgLoc.tlc i, s1.activate (MsgLoc.tlc i))
  | none =>
    let numChunks := s.chunks.length
    let startChunkIndex := s.nextChunkIndex % numChunks
    let s1 := { s with nextChunkIndex := s.nextChunkIndex + 1 }
    match MessagePool.scanChunksFrom s1.chunks startChunkIndex numChunks with
    | some (c, j) =>
      let s2 := s1.claimShared c j true
      (MsgLoc.shared c j, s2.activate (MsgLoc.shared c j))
    | none =>
      match s1.AcquireFromThreadLocalCache with
      | some (i, s2) => (MsgLoc.tlc i, s2.activate (MsgLoc.tlc i))
      | none =>
        match MessagePool.scanAllChunks s1.chunks with
        | some (c, j) =>
          let s2 := s1.claimShared c j false
          (MsgLoc.shared c j, s2.activate (MsgLoc.shared c j))
        | none =>
          let newChunkSize := (s1.chunks.getLastD default).size * GROWTH_FACTOR
          let s2 := { s1 with
            chunks := s1.chunks ++ [MessagePool.freshChunk newChunkSize]
            capacity := s1.capacity + newChunkSize }
          let c := s2.chunks.length - 1
          let s3 := s2.claimShared c 0 true
          (MsgLoc.shared c 0, s3.activate (MsgLoc.shared c 0))

/-- Embedding of `MessagePool::TryReleaseToThreadLocalCache`: the
cache-bounds pointer test succeeds exactly for thread-local-cache
locations; reset the message and free the local slot. -/
def MessagePool.TryReleaseToThreadLocalCache (s : MessagePool) (loc : MsgLoc) :
    Option MessagePool :=
  match loc with
  | .tlc i =>
    let s1 := s.setMsg loc (MessagePool.ResetMessage (s.getMsg loc))
    some { s1 with
      localUsed := s1.localUsed.set i false
      localUsedCount := s1.localUsedCount - 1 }
  | .shared _ _ => none

/-- The flag-clearing tail of the chunk search in
`MessagePool::FinalizeRelease`: exchange the in-use flag to false and
decrement the size counter when the flag was set. -/
def MessagePool.freeSharedSlot (s : MessagePool) (c j : Nat) : MessagePool :=
  let ch := s.chunks.getD c default
  let wasUsed := ch.used.getD j false
  let s2 := { s with chunks := s.chunks.set c { ch with used := ch.used.set j false } }
  if wasUsed then { s2 with size := s2.size - 1 } else s2

/-- Embedding of `MessagePool::FinalizeRelease`: require `Releasing`
state; try the thread-local cache first; otherwise the pointer-range
search over the chunks finds the (chunk, slot) of the message, resets it,
clears the in-use flag, and decrements the size counter when the flag was
set.  A location outside every chunk is left untouched. -/
def MessagePool.FinalizeRelease (s : MessagePool) (loc : MsgLoc) : MessagePool :=
  if (s.getMsg loc).state = MessageState.Releasing then
    match s.TryReleaseToThreadLocalCache loc with
    | some s1 => s1
    | none =>
      match loc with
      | .tlc _ => s
      | .shared c j =>
        if c < s.chunks.length ∧ j < (s.chunks.getD c default).size then
          (s.setMsg loc (MessagePool.ResetMessage (s.getMsg loc))).freeSharedSlot c j
        else s
  else s

/-- Embedding of `MessagePool::Release(Message*)`: CAS `Active` to
`Releasing` (return unchanged when not `Active`); when the refcount is 1,
store 0 and finalize; otherwise finalization is deferred to the last
reference drop. -/
def MessagePool.Release (s : MessagePool) (loc : MsgLoc) : MessagePool :=
  let m := s.getMsg loc
  if m.state = MessageState.Active then
    let s1 := s.setMsg loc { m with state := MessageState.Releasing }
    let m1 := s1.getMsg loc
    if m1.refCount = 1 then
      let s2 := s1.setMsg loc { m1 with refCount := 0 }
      s2.FinalizeRelease loc
    else s1
  else s

/-- The caller-side population of a freshly acquired message
(`Logger::CreateMessage` and friends): it writes the payload fields and
the logger back-pointer but leaves `state` and `refCount` alone. -/
structure Payload where
  timestamp : Nat
  name : List Char
  level : Level
  text : List Char
  sourceLocation : Nat
  logger : Option Nat
  structuredData : StructuredData
deriving DecidableEq

/-- Populate the message at `loc` with a payload, as the logger does
between `Acquire` and handing the message on. -/
def MessagePool.populate (s : MessagePool) (loc : MsgLoc) (p : Payload) : MessagePool :=
  let m := s.getMsg loc
  s.setMsg loc { m with
    timestamp := p.timestamp
    name := p.name
    level := p.level
    message := (StringStorage.Create p.text).View
    sourceLocation := p.sourceLocation
    messageStorage := StringStorage.Create p.text
    logger := p.logger
    structuredData := p.structuredData }

/-- The data fields `ResetMessage` clears are clear: empty views, empty
structured data, level `Info`, null logger. -/
def DataReset (m : Message) : Prop :=
  m.name = [] ∧ m.message = [] ∧ m.structuredData = []
    ∧ m.level = Level.Info ∧ m.logger = none

instance (m : Message) : Decidable (DataReset m) := by
  unfold DataReset
  infer_instance

/-- A fully reset pooled message (what a free slot holds). -/
def IsResetMsg (m : Message) : Prop :=
  DataReset m ∧ m.state = MessageState.Pooled ∧ m.refCount = 0

instance (m : Message) : Decidable (IsResetMsg m) := by
  unfold IsResetMsg
  infer_instance

/-- Structural well-formedness of a pool state: the parallel arrays have
matching lengths and at least one chunk exists (the constructor
establishes both). -/
def PoolShape (s : MessagePool) : Prop :=
  s.localMessages.length = s.localUsed.length
  ∧ (∀ c < s.chunks.length,
      (s.chunks.getD c default).objects.length = (s.chunks.getD c default).used.length)
  ∧ (∀ c < s.chunks.length, 0 < (s.chunks.getD c default).objects.length)
  ∧ s.chunks ≠ []

instance (s : MessagePool) : Decidable (PoolShape s) := by
  unfold PoolShape
  infer_instance

/-- Every free slot holds a fully reset message (the pool invariant the
reset discipline maintains). -/
def FreeSlotsReset (s : MessagePool) : Prop :=
  (∀ i < s.localUsed.length,
    s.localUsed.getD i true = false → IsResetMsg (s.localMessages.getD i {}))
  ∧ (∀ c < s.chunks.length, ∀ j < (s.chunks.getD c default).used.length,
      (s.chunks.getD c default).used.getD j true = false →
        IsResetMsg ((s.chunks.getD c default).objects.getD j {}))

instance (s : MessagePool) : Decidable (FreeSlotsReset s) := by
  unfold FreeSlotsReset
  infer_instance

/-- A location that indexes inside the allocated arrays (every location
the modelled executions produce is of this kind). -/
def MessagePool.locInRange (s : MessagePool) (loc : MsgLoc) : Prop :=
  match loc with
  | .tlc i => i < s.localMessages.length ∧ i < s.localUsed.length
  | .shared c j => c < s.chunks.length
      ∧ j < (s.chunks.getD c default).objects.length
      ∧ j < (s.chunks.getD c default).used.length

instance (s : MessagePool) (loc : MsgLoc) : Decidable (s.locInRange loc) := by
  unfold MessagePool.locInRange
  cases loc <;> infer_instance

/-- No slot of the pool is free: every thread-local flag and every chunk
flag is set. -/
def NoFreeSlot (s : MessagePool) : Prop :=
  (∀ b ∈ s.localUsed, b = true) ∧ (∀ ch ∈ s.chunks, ∀ b ∈ ch.used, b = true)

instance (s : MessagePool) : Decidable (NoFreeSlot s) := by
  unfold NoFreeSlot
  infer_instance

/-! ### AtomicString (`Core/AtomicString.h/.cpp`)

A fixed 128-byte buffer plus an atomic length.  `Store` truncates to
`MAX_LENGTH - 1` bytes; `Compare` is a length test followed by `memcmp`
over the stored bytes, i.e. byte equality with the stored string. -/

def AtomicString.MAX_LENGTH : Nat := 128

structure AtomicString where
  buffer : List Char
deriving DecidableEq, Repr

/-- Embedding of `AtomicString::Store`: keep at most `MAX_LENGTH - 1`
bytes. -/
def AtomicString.Store (s : List Char) : AtomicString :=
  ⟨s.take (AtomicString.MAX_LENGTH - 1)⟩

/-- Embedding of `AtomicString::Load`: the stored bytes. -/
def AtomicString.Load (a : AtomicString) : List Char := a.buffer

/-- Embedding of `AtomicString::Compare`: false on length mismatch, else
`memcmp` over the stored bytes. -/
def AtomicString.Compare (a : AtomicString) (s : List Char) : Bool :=
  decide (a.buffer = s)

/-! ### Logger registry (`LogManager.cpp`, class `LoggerMap`)

An array of `NUM_BUCKETS = 256` bucket heads; each bucket is a chain of
`LoggerEntry { name, logger, next }`, modelled as a list of
`(name, logger identity)` pairs in chain order.  `Remove` unlinks the
first entry of the bucket whose name matches; `Clear` empties every
bucket. -/

def NUM_BUCKETS : Nat := 256

abbrev LoggerEntry : Type := List Char × Nat

abbrev LoggerMap : Type := List (List LoggerEntry)

/-- FNV-1a 64-bit hash of the name bytes (`LoggerMap::GetBucketIndex`,
first part), with 64-bit wrap-around multiplication. -/
def fnv1a64 (name : List Char) : Nat :=
  name.foldl (fun h c => ((h ^^^ c.toNat % 256) * 0x100000001B3) % 2 ^ 64) 0xCBF29CE484222325

/-- Embedding of `LoggerMap::GetBucketIndex`: empty names hash to bucket
0; otherwise FNV-1a with a final 32-bit xor-fold, masked by
`NUM_BUCKETS - 1` (a power of two). -/
def LoggerMap.GetBucketIndex (name : List Char) : Nat :=
  if name = [] then 0
  else
    let h := fnv1a64 name
    let h := h ^^^ (h >>> 32)
    h &&& (NUM_BUCKETS - 1)

/-- Embedding of `LoggerMap::Remove`: in the bucket the name hashes to,
unlink the first entry whose name compares equal; return whether an entry
was removed. -/
def LoggerMap.Remove (mp : LoggerMap) (name : List Char) : Bool × LoggerMap :=
  let i := LoggerMap.GetBucketIndex name
  let chain := mp.getD i []
  if chain.any (fun e => decide (e.1 = name)) then
    (true, mp.set i (chain.eraseP (fun e => decide (e.1 = name))))
  else
    (false, mp)

/-- Embedding of `LoggerMap::Clear`: exchange every bucket head to null
and delete the chains. -/
def LoggerMap.Clear (mp : LoggerMap) : LoggerMap :=
  mp.map (fun _ => [])

/-! ### LogManager (`LogManager.h/.cpp`)

The lifecycle state machine plus the members `Shutdown` and
`RemoveLogger` touch.  The thread pool is modelled by its presence, and
the teardown steps `Shutdown` performs are recorded as an explicit action
trace so that "performs no teardown actions" is expressible. -/

inductive LogManagerState where
  | Uninitialized
  | Initializing
  | Running
  | ShuttingDown
  | ShutDown
deriving DecidableEq, Repr

/-- Embedding of `LogManager::GetStateName`. -/
def GetStateName : LogManagerState → String
  | .Uninitialized => "Uninitialized"
  | .Initializing => "Initializing"
  | .Running => "Running"
  | .ShuttingDown => "ShuttingDown"
  | .ShutDown => "ShutDown"

/-- Embedding of the `Result<void>` values `LogManager::Shutdown`
produces: `Ok()` or `Err(code, message)`. -/
inductive Result where
  | ok
  | err (code : Nat) (message : String)
deriving DecidableEq, Repr

/-- The observable teardown steps of `LogManager::Shutdown`. -/
inductive TeardownAction where
  | FlushPool
  | ShutdownPool
  | DeletePool
  | ClearRegistry
  | ClearSinks
deriving DecidableEq, Repr

structure LogManager where
  state : LogManagerState
  threadPool : Bool
  loggerMap : LoggerMap
  globalSinks : RCUList Nat
  defaultLoggerName : AtomicString
deriving DecidableEq

/-- Embedding of `LogManager::Shutdown(waitForCompletion, timeout)`.  The
compare-exchange from `Running` to `ShuttingDown` succeeds exactly when
the state is `Running`; on failure the observed state selects the error
(after the CAS fails the state cannot be `Running`, so the three error
branches are exhaustive).  On success the teardown runs without
exceptions: optional flush, thread-pool shutdown and deletion, registry
clear, global-sink clear, then the state becomes `ShutDown`. -/
def LogManager.Shutdown (m : LogManager) (waitForCompletion : Bool) :
    Result × LogManager × List TeardownAction :=
  if m.state = LogManagerState.Running then
    let flushActs := if waitForCompletion && m.threadPool then [TeardownAction.FlushPool] else []
    let poolActs := if m.threadPool then [TeardownAction.ShutdownPool, TeardownAction.DeletePool] else []
    (Result.ok,
      { m with
        state := LogManagerState.ShutDown
        threadPool := false
        loggerMap := m.loggerMap.Clear
        globalSinks := m.globalSinks.Clear },
      flushActs ++ poolActs ++ [TeardownAction.ClearRegistry, TeardownAction.ClearSinks])
  else if m.state = LogManagerState.Uninitialized ∨ m.state = LogManagerState.ShutDown then
    (Result.err 1 ("LogManager not initialized or already shut down, current state: "
        ++ GetStateName m.state), m, [])
  else if m.state = LogManagerState.Initializing then
    (Result.err 1 "Cannot shutdown LogManager while it's being initialized", m, [])
  else
    (Result.err 1 "LogManager is already shutting down", m, [])

/-- Embedding of `LogManager::RemoveLogger`: return without touching the
registry unless the state is `Running` and the name differs from the
stored default logger name; otherwise remove the first matching registry
entry. -/
def LogManager.RemoveLogger (m : LogManager) (name : List Char) : LogManager :=
  if !decide (m.state = LogManagerState.Running) || m.defaultLoggerName.Compare name then m
  else { m with loggerMap := (m.loggerMap.Remove name).2 }

/-- The registry entries carrying a given name, in bucket-then-chain
order.  Used to state that `RemoveLogger` never removes the default
logger's entries. -/
def LoggerMap.entriesNamed (mp : LoggerMap) (d : List Char) : List LoggerEntry :=
  (mp.map (fun chain => chain.filter (fun e => decide (e.1 = d)))).flatten

/-- The round trip of claim C1: acquire a message, populate it, release
it, and acquire again; the result is the second acquisition's location
and pool state. -/
def acquireReleaseAcquire (s : MessagePool) (p : Payload) : MsgLoc × MessagePool :=
  let a1 := s.Acquire
  let s2 := a1.2.populate a1.1 p
  let s3 := s2.Release a1.1
  s3.Acquire

/-! ### MessageQueue (`Core/MessageQueue.h/.cpp`)

The bounded MPMC ring (Vyukov queue): an array of slots, each a sequence
number and a message pointer, with producer and consumer positions that
only grow and are reduced to a slot index by `position & IndexMask()`.
The sequential model runs each operation to completion, so the
`compare_exchange_strong` calls succeed whenever reached (the contended
retry paths return to the caller with `false`/`nullptr` exactly as a
failed sequence check does).  The 64-bit positions are carried as exact
naturals: they only grow by one per successful operation, so a `size_t`
wrap would need `2^64` operations, and below that every C++ equality test
on them agrees with the model's.  `RoundUpPow2`, whose decrement and
increment wrap on small and huge inputs, keeps its `% 2^64` steps. -/

/-- One `v |= v >> s` step of `RoundUpPow2` (the shifts stay inside 64
bits, so no masking is needed on this step). -/
def orShift (v s : Nat) : Nat := v ||| v >>> s

/-- Embedding of `MessageQueue::RoundUpPow2` on `size_t`: decrement
(wrapping at zero), smear the bits right by or-shifts of 1..32, and
increment (wrapping at `2^64`). -/
def MessageQueue.RoundUpPow2 (v : Nat) : Nat :=
  (orShift (orShift (orShift (orShift (orShift (orShift
    ((v + (2 ^ 64 - 1)) % 2 ^ 64) 1) 2) 4) 8) 16) 32 + 1) % 2 ^ 64

def MessageQueue.DEFAULT_CAPACITY : Nat := 1024

/-- A queue slot: `Slot() : sequence(0), message(nullptr)`. -/
structure Slot where
  sequence : Nat
  message : Option Nat
deriving DecidableEq, Repr

instance : Inhabited Slot := ⟨⟨0, none⟩⟩

structure MessageQueue where
  slots : List Slot
  capacity : Nat
  producerIndex : Nat
  consumerIndex : Nat
  peakUsage : Nat
deriving DecidableEq

def MessageQueue.IndexMask (q : MessageQueue) : Nat := q.capacity - 1

/-- Embedding of the `MessageQueue` constructor: round the requested
capacity (default when 0) up to a power of two and initialize slot `i`
with sequence `i`. -/
def MessageQueue.initQueue (capacity : Nat) : MessageQueue :=
  let cap := MessageQueue.RoundUpPow2
    (if capacity = 0 then MessageQueue.DEFAULT_CAPACITY else capacity)
  { slots := (List.range cap).map (fun i => { sequence := i, message := none }),
    capacity := cap, producerIndex := 0, consumerIndex := 0, peakUsage := 0 }

/-- Embedding of `MessageQueue::Size`. -/
def MessageQueue.Size (q : MessageQueue) : Nat :=
  if q.consumerIndex ≤ q.producerIndex then q.producerIndex - q.consumerIndex
  else q.capacity - (q.consumerIndex - q.producerIndex)

/-- The peak-usage statistics tail of `TryEnqueue`: store `Size()` as the
new peak when it exceeds the stored peak. -/
def MessageQueue.updatePeak (q : MessageQueue) : MessageQueue :=
  if q.peakUsage < q.Size then { q with peakUsage := q.Size } else q

/-- The body of `MessageQueue::TryEnqueue` past the null test: read the
producer position; fail when the indexed slot's sequence differs from the
position; otherwise advance the producer index, write the message, set
the slot's sequence to position + 1, and update the peak statistic. -/
def MessageQueue.enqueueAt (q : MessageQueue) (msg : Nat) : Bool × MessageQueue :=
  if (q.slots.getD (q.producerIndex &&& q.IndexMask) default).sequence
      ≠ q.producerIndex then
    (false, q)
  else
    (true, ({ q with
      producerIndex := q.producerIndex + 1,
      slots := q.slots.set (q.producerIndex &&& q.IndexMask)
        { sequence := q.producerIndex + 1, message := some msg } }
        : MessageQueue).updatePeak)

/-- Embedding of `MessageQueue::TryEnqueue`: a null message is
rejected. -/
def MessageQueue.TryEnqueue (q : MessageQueue) (message : Option Nat) :
    Bool × MessageQueue :=
  match message with
  | none => (false, q)
  | some msg => q.enqueueAt msg

/-- Embedding of `MessageQueue::TryDequeue`: read the consumer position;
fail when the indexed slot's sequence differs from position + 1;
otherwise advance the consumer index, take the message out, and set the
slot's sequence to position + capacity. -/
def MessageQueue.TryDequeue (q : MessageQueue) : Option Nat × MessageQueue :=
  let positionToConsume := q.consumerIndex
  let index := positionToConsume &&& q.IndexMask
  let slot := q.slots.getD index default
  if slot.sequence ≠ positionToConsume + 1 then (none, q)
  else
    (slot.message,
      { q with
        consumerIndex := positionToConsume + 1,
        slots := q.slots.set index
          { sequence := positionToConsume + q.capacity, message := none } })

/-- A queue operation of claim C4. -/
inductive MQOp where
  | enq (message : Option Nat)
  | deq
deriving DecidableEq, Repr

/-- Run a list of queue operations, counting successful enqueues and
successful (non-null) dequeues. -/
def MessageQueue.runOps (q : MessageQueue) : List MQOp → MessageQueue × Nat × Nat
  | [] => (q, 0, 0)
  | MQOp.enq m :: rest =>
    let r := q.TryEnqueue m
    let t := r.2.runOps rest
    (t.1, (if r.1 then 1 else 0) + t.2.1, t.2.2)
  | MQOp.deq :: rest =>
    let r := q.TryDequeue
    let t := r.2.runOps rest
    (t.1, t.2.1, (if r.1.isSome then 1 else 0) + t.2.2)

/-- The Vyukov-queue invariant at capacity `2^k`: the positions span a
window of at most one capacity, and for each position of the window
`[consumerIndex, consumerIndex + capacity)` its slot's sequence is
position + 1 when the position is filled (below the producer index) and
position itself when it awaits its producer. -/
def MQInv (k : Nat) (q : MessageQueue) : Prop :=
  q.capacity = 2 ^ k
  ∧ 1 ≤ k
  ∧ q.slots.length = q.capacity
  ∧ q.consumerIndex ≤ q.producerIndex
  ∧ q.producerIndex ≤ q.consumerIndex + q.capacity
  ∧ (∀ pos, q.consumerIndex ≤ pos → pos < q.consumerIndex + q.capacity →
      (q.slots.getD (pos % q.capacity) default).sequence
        = if pos < q.producerIndex then pos + 1 else pos)
  ∧ (∀ pos, q.consumerIndex ≤ pos → pos < q.producerIndex →
      ((q.slots.getD (pos % q.capacity) default).message).isSome = true)

/-! ### Worker priority queue (`Core/LoggerThreadPool.h/.cpp`)

Each worker owns a `std::priority_queue<QueueItem>` whose `operator<`
compares `priority` alone.  The container is libstdc++'s binary max-heap
in a vector: `push` appends and sifts up (`std::__push_heap`), `pop`
moves the root out and re-heapifies with the down-then-up
`std::__adjust_heap`.  Both loops are embedded with an explicit fuel
that callers set to a bound the loop never exhausts (the sift-up hole
index strictly decreases, the sift-down child index strictly increases
below `(len - 1) / 2`). -/

structure QueueItem where
  message : Nat
  priority : Nat
deriving DecidableEq, Repr

instance : Inhabited QueueItem := ⟨⟨0, 0⟩⟩

/-- `std::__push_heap(first, holeIndex, topIndex = 0, value)`: while the
hole is below the top and its parent compares less than the value, move
the parent down; finally write the value into the hole. -/
def pushHeapLoop (fuel : Nat) (a : List QueueItem) (hole : Nat) (value : QueueItem) :
    List QueueItem :=
  match fuel with
  | 0 => a.set hole value
  | fuel2 + 1 =>
    if 0 < hole
        ∧ (a.getD ((hole - 1) / 2) default).priority < value.priority then
      pushHeapLoop fuel2 (a.set hole (a.getD ((hole - 1) / 2) default))
        ((hole - 1) / 2) value
    else a.set hole value

/-- The descent loop of `std::__adjust_heap`: while the hole has two
children inside the range, move the larger child (the right one on ties)
into the hole and descend.  Returns the array, the hole index and the
`secondChild` variable. -/
def adjustLoop (fuel : Nat) (a : List QueueItem) (hole sc len : Nat) :
    List QueueItem × Nat × Nat :=
  match fuel with
  | 0 => (a, hole, sc)
  | fuel2 + 1 =>
    if sc < (len - 1) / 2 then
      let sc2 := 2 * (sc + 1)
      let sc3 := if (a.getD sc2 default).priority < (a.getD (sc2 - 1) default).priority
                 then sc2 - 1 else sc2
      adjustLoop fuel2 (a.set hole (a.getD sc3 default)) sc3 sc3 len
    else (a, hole, sc)

/-- `std::__adjust_heap(first, holeIndex = 0, len, value)`: sift the hole
down to the bottom level (taking the single last child when `len` is even
and the hole ends at its parent), then sift the value up from there. -/
def adjustHeap (a : List QueueItem) (len : Nat) (value : QueueItem) : List QueueItem :=
  let r := adjustLoop len a 0 0 len
  if len % 2 = 0 ∧ r.2.2 = (len - 2) / 2 then
    let sc2 := 2 * (r.2.2 + 1)
    pushHeapLoop (sc2 - 1) (r.1.set r.2.1 (r.1.getD (sc2 - 1) default)) (sc2 - 1) value
  else
    pushHeapLoop r.2.1 r.1 r.2.1 value

/-- `std::priority_queue::push`: append, then sift the new element up. -/
def pqPush (a : List QueueItem) (x : QueueItem) : List QueueItem :=
  pushHeapLoop a.length (a ++ [x]) ((a ++ [x]).length - 1) x

/-- `std::priority_queue::top` followed by `pop`
(`std::pop_heap` + `pop_back`): return the root; move the last element
out as the value, shrink the array by one, and re-heapify with
`__adjust_heap` (a one-element heap just becomes empty). -/
def pqPop (a : List QueueItem) : QueueItem × List QueueItem :=
  match a with
  | [] => (default, [])
  | [x] => (x, [])
  | _ =>
    (a.getD 0 default,
      adjustHeap (a.take (a.length - 1)) (a.length - 1)
        (a.getD (a.length - 1) default))

/-- The binary max-heap order on priorities that `std::priority_queue`
maintains: every non-root entry is at most its parent. -/
def IsHeap (a : List QueueItem) : Prop :=
  ∀ j, 0 < j → j < a.length →
    (a.getD j default).priority ≤ (a.getD ((j - 1) / 2) default).priority

instance (a : List QueueItem) : Decidable (IsHeap a) :=
  decidable_of_iff (∀ j < a.length, 0 < j →
      (a.getD j default).priority ≤ (a.getD ((j - 1) / 2) default).priority)
    ⟨fun h j h0 hl => h j hl h0, fun h j hl h0 => h j h0 hl⟩

/-- A concrete two-slot pool (one cache slot, one one-slot chunk), all
slots free and reset. -/
def examplePool : MessagePool :=
  ⟨[{}], [false], 0, [⟨[{}], [false]⟩], 0, 0, 2, 0⟩

/-- A concrete message payload. -/
def examplePayload : Payload :=
  ⟨1, ['a'], Level.Error, ['h', 'i'], 7, some 3, [(['k'], 5)]⟩

/-- A concrete fully occupied pool: every cache slot and every chunk slot
is in use. -/
def exampleFullPool : MessagePool :=
  ⟨[{}], [true], 1, [⟨[{}], [true]⟩], 0, 2, 2, 2⟩

end FlexLog

open FlexLog

/-! ## Helper lemmas -/

theorem List.take_set_of_le {α : Type _} (l : List α) (i n : Nat) (a : α) (h : n ≤ i) :
    (l.set i a).take n = l.take n := by
  apply List.ext_getElem?
  intro m
  rw [List.getElem?_take, List.getElem?_take]
  by_cases hm : m < n
  · simp only [hm, if_true]
    exact List.getElem?_set_ne (by omega)
  · simp [hm]

theorem take_length_append {α : Type _} (l₁ l₂ : List α) :
    (l₁ ++ l₂).take l₁.length = l₁ :=
  List.take_left l₁ l₂

/-! ## C8: StringStorage stores inline exactly below 64 bytes -/

/-- C8.  For every input string, `StringStorage::Create` stores the bytes
inline and its view points into the object's own inline buffer exactly when
the payload length is less than 64; otherwise it allocates exactly `len`
bytes on the heap (the buffer holds precisely the `len` copied bytes) and
the view points there; in both cases `View()` returns bytes equal to the
input. -/
theorem c8_stringstorage_create (str : List Char) :
    ((StringStorage.Create str).IsInline = true ↔ str.length < 64)
    ∧ (StringStorage.Create str).View = str
    ∧ (64 ≤ str.length →
        (StringStorage.Create str).heapBuffer = some str
        ∧ ((StringStorage.Create str).heapBuffer.getD []).length = str.length
        ∧ (StringStorage.Create str).IsInline = false) := by
  have hmem : ∀ dst : List Char, memcpy dst str str.length = str ++ dst.drop str.length := by
    intro dst
    unfold memcpy
    rw [List.take_length]
  unfold StringStorage.Create StringStorage.Store StringStorage.View
    StringStorage.IsInline StringStorage.init
  by_cases h : str.length < INLINE_CAPACITY
  · have h64 : str.length < 64 := h
    simp only [if_pos h]
    refine ⟨⟨fun _ => h64, fun _ => trivial⟩, ?_, by omega⟩
    by_cases h2 : str.length < INLINE_CAPACITY - 1
    · simp only [if_pos h2, hmem]
      rw [List.take_set_of_le _ _ _ _ (le_refl _)]
      exact take_length_append str _
    · simp only [if_neg h2, hmem]
      exact take_length_append str _
  · have h64 : ¬ str.length < 64 := h
    simp only [if_neg h]
    refine ⟨⟨fun hc => Bool.noConfusion hc, fun hc => absurd hc h64⟩, ?_, ?_⟩
    · simp [List.take_length str]
    · intro _
      exact ⟨trivial, rfl, trivial⟩

/-- Witness for C8 at a concrete heap-sized input. -/
theorem c8_witness :
    64 ≤ (List.replicate 64 'a').length
    ∧ (StringStorage.Create (List.replicate 64 'a')).heapBuffer
        = some (List.replicate 64 'a') :=
  ⟨by simp, ((c8_stringstorage_create (List.replicate 64 'a')).2.2 (by simp)).1⟩

/-! ## C3: RCUList remove -/

/-- Counterexample for C3 as stated.  On the list holding `[0, 0]`,
`RCUList::Remove 0` publishes the empty snapshot, while omitting only the
first matching entry (the spec's wording, `removeFirstSpec`) would leave
`[0]`: the published snapshot drops every matching entry, not only the
first. -/
theorem c3_counterexample :
    RCUList.Remove 0 (some [0, 0] : RCUList Nat) = (true, some [])
    ∧ removeFirstSpec 0 [0, 0] = [0]
    ∧ some (removeFirstSpec 0 [0, 0]) ≠ (RCUList.Remove 0 (some [0, 0] : RCUList Nat)).2 := by
  decide

/-- C3 (amended).  `Remove(item)` returns false and leaves the list
unchanged when no entry equals `item`; otherwise it publishes a new
snapshot omitting every matching entry, keeping all other items in order;
consequently `Add(x); Remove(x)` restores the previous item sequence
provided `x` was not already present (with duplicates present, the
`Remove` also deletes the pre-existing copies). -/
theorem rcu_remove_of_not_mem {T : Type} [DecidableEq T] (x : T) (l : RCUList T)
    (hx : x ∉ RCUList.items l) : RCUList.Remove x l = (false, l) := by
  match l with
  | none => rfl
  | some items =>
    simp only [RCUList.items, Option.getD_some] at hx
    unfold RCUList.Remove
    by_cases he : items.isEmpty
    · simp [he]
    · simp [he, hx]

theorem rcu_remove_of_mem {T : Type} [DecidableEq T] (x : T) (items : List T)
    (hx : x ∈ items) :
    RCUList.Remove x (some items)
      = (true, some (items.filter (fun y => !decide (y = x)))) := by
  have hne : items.isEmpty = false := by
    cases items with
    | nil => simp at hx
    | cons a t => rfl
  unfold RCUList.Remove
  simp [hne, hx]

theorem rcu_add_eq {T : Type} (x : T) (l : RCUList T) :
    RCUList.Add x l = some (RCUList.items l ++ [x]) := by
  cases l <;> rfl

theorem c3_rcu_remove_amended (l : RCUList Nat) (x : Nat) :
    (x ∉ RCUList.items l → RCUList.Remove x l = (false, l))
    ∧ (x ∈ RCUList.items l →
        RCUList.Remove x l
          = (true, some ((RCUList.items l).filter (fun y => !decide (y = x)))))
    ∧ (x ∉ RCUList.items l →
        RCUList.items (RCUList.Remove x (RCUList.Add x l)).2 = RCUList.items l) := by
  refine ⟨fun hx => rcu_remove_of_not_mem x l hx, ?_, ?_⟩
  · intro hx
    match l with
    | none => simp [RCUList.items] at hx
    | some items =>
      simp only [RCUList.items, Option.getD_some] at hx ⊢
      exact rcu_remove_of_mem x items hx
  · intro hx
    rw [rcu_add_eq]
    rw [rcu_remove_of_mem x (RCUList.items l ++ [x]) (by simp)]
    simp only [RCUList.items, Option.getD_some] at hx ⊢
    rw [List.filter_append]
    have h1 : (Option.getD l []).filter (fun y => !decide (y = x)) = Option.getD l [] := by
      rw [List.filter_eq_self]
      intro a ha
      simp only [Bool.not_eq_true']
      exact decide_eq_false (fun hax => hx (by rw [← hax]; exact ha))
    have h2 : [x].filter (fun y => !decide (y = x)) = [] := by simp
    rw [h1, h2, List.append_nil]

/-- Witness for C3 (amended) at a concrete list. -/
theorem c3_amended_witness :
    (3 ∉ RCUList.items (some [1, 2] : RCUList Nat))
    ∧ RCUList.items (RCUList.Remove 3 (RCUList.Add 3 (some [1, 2] : RCUList Nat))).2
        = [1, 2] :=
  ⟨by decide, (c3_rcu_remove_amended (some [1, 2]) 3).2.2 (by decide)⟩

/-! ## C2: Logger::Log reject conditions -/

/-- Counterexample for C2 as stated.  The claim requires both `Log`
overloads to reject an empty message text, but the structured-data
overload does not test for emptiness: on an empty text with an
in-range level it returns true (and constructs a message). -/
theorem c2_counterexample :
    ([] : List Char).isEmpty = true
    ∧ (Logger.LogStructured { id := 0, name := ['t'], level := Level.Trace } {} [] []
        Level.Info 0 0).1 = true := by
  constructor
  · rfl
  · rfl

/-- C2 (amended).  The plain overload `Logger::Log(msg, level, location)`
rejects (returns false without constructing a message) exactly when the
text is empty, or the level is below the logger's level, or the level is
at or above `Off`; the structured-data overload rejects exactly when the
level is below the logger's level or at or above `Off` — an empty text is
accepted there.  In all other cases each overload constructs and enqueues
a message and returns true. -/
theorem c2_logger_log_amended (lg : Logger) (pm : Message) (msg : List Char)
    (data : StructuredData) (level : Level) (loc now : Nat) :
    ((lg.Log pm msg level loc now).1 = false ↔
      (msg.isEmpty = true ∨ level.toNat < lg.level.toNat ∨ Level.Off.toNat ≤ level.toNat))
    ∧ ((lg.Log pm msg level loc now).1 = false → (lg.Log pm msg level loc now).2 = none)
    ∧ ((lg.Log pm msg level loc now).1 = true →
        (lg.Log pm msg level loc now).2 = some (lg.CreateMessage pm msg level loc now))
    ∧ ((lg.LogStructured pm msg data level loc now).1 = false ↔
      (level.toNat < lg.level.toNat ∨ Level.Off.toNat ≤ level.toNat))
    ∧ ((lg.LogStructured pm msg data level loc now).1 = false →
        (lg.LogStructured pm msg data level loc now).2 = none)
    ∧ ((lg.LogStructured pm msg data level loc now).1 = true →
        (lg.LogStructured pm msg data level loc now).2
          = some (lg.CreateStructuredMessage pm msg data level loc now)) := by
  unfold Logger.Log Logger.LogStructured Level.ltb Level.geb
  by_cases h1 : msg.isEmpty <;> by_cases h2 : level.toNat < lg.level.toNat <;>
    by_cases h3 : Level.Off.toNat ≤ level.toNat <;>
      simp [h1, h2, h3]

/-- Witness for C2 (amended): a concrete accepted plain-overload call. -/
theorem c2_amended_witness :
    (Logger.Log { id := 0, name := ['t'], level := Level.Trace } {} ['a'] Level.Info 0 0).1 = true
    ∧ (Logger.Log { id := 0, name := ['t'], level := Level.Trace } {} ['a'] Level.Info 0 0).2
        = some (Logger.CreateMessage { id := 0, name := ['t'], level := Level.Trace } {} ['a']
            Level.Info 0 0) := by
  have h := (c2_logger_log_amended { id := 0, name := ['t'], level := Level.Trace } {} ['a'] []
    Level.Info 0 0).2.2.1
  exact ⟨by rfl, h (by rfl)⟩


/-! ## C7: double Shutdown -/

/-- C7.  After a first `Shutdown` from the `Running` state has completed,
a second `Shutdown` returns the error naming the observed `ShutDown`
state, leaves the manager unchanged, and performs no teardown action (no
second flush, pool shutdown or deletion, registry clear, or sink
clear). -/
theorem c7_shutdown_twice (m : LogManager) (w1 w2 : Bool)
    (h : m.state = LogManagerState.Running) :
    (LogManager.Shutdown (LogManager.Shutdown m w1).2.1 w2).1
      = Result.err 1 ("LogManager not initialized or already shut down, current state: "
          ++ GetStateName LogManagerState.ShutDown)
    ∧ (LogManager.Shutdown (LogManager.Shutdown m w1).2.1 w2).2.1
        = (LogManager.Shutdown m w1).2.1
    ∧ (LogManager.Shutdown (LogManager.Shutdown m w1).2.1 w2).2.2 = [] := by
  unfold LogManager.Shutdown
  simp [h]

/-- Witness for C7 at a concrete running manager. -/
theorem c7_witness :
    (LogManager.Shutdown
        (LogManager.Shutdown
          { state := LogManagerState.Running, threadPool := true, loggerMap := [],
            globalSinks := none, defaultLoggerName := AtomicString.Store ['m'] } true).2.1
        true).1
      = Result.err 1 ("LogManager not initialized or already shut down, current state: "
          ++ GetStateName LogManagerState.ShutDown) :=
  (c7_shutdown_twice
    { state := LogManagerState.Running, threadPool := true, loggerMap := [],
      globalSinks := none, defaultLoggerName := AtomicString.Store ['m'] } true true rfl).1

/-! ## C10: RemoveLogger frame conditions -/

theorem filter_eraseP_of_disjoint {α : Type _} (p q : α → Bool) (l : List α)
    (h : ∀ a, q a = true → p a = false) :
    (l.eraseP q).filter p = l.filter p := by
  induction l with
  | nil => rfl
  | cons a t ih =>
    by_cases hqa : q a = true
    · rw [List.eraseP_cons_of_pos hqa, List.filter_cons_of_neg (by simp [h a hqa])]
    · rw [List.eraseP_cons_of_neg (by simpa using hqa)]
      cases hpa : p a
      · rw [List.filter_cons_of_neg (by simp [hpa]), List.filter_cons_of_neg (by simp [hpa]), ih]
      · rw [List.filter_cons_of_pos hpa, List.filter_cons_of_pos hpa, ih]

theorem set_getD_self {α : Type _} (l : List α) (i : Nat) (d : α) :
    l.set i (l.getD i d) = l := by
  apply List.ext_getElem?
  intro j
  rw [List.getElem?_set]
  by_cases hij : i = j
  · subst hij
    by_cases hi : i < l.length
    · simp [hi, List.getD_eq_getElem?_getD, List.getElem?_eq_getElem hi]
    · simp only [hi, if_false, if_true]
      rw [List.getElem?_eq_none (Nat.le_of_not_lt hi)]
  · simp [hij]

theorem getD_map {α β : Type _} (f : α → β) (l : List α) (i : Nat) (d : α) :
    (l.map f).getD i (f d) = f (l.getD i d) := by
  induction l generalizing i with
  | nil => rfl
  | cons a t ih =>
    cases i with
    | zero => rfl
    | succ n => exact ih n

/-- Removing one name from the registry leaves the entries of every other
name untouched. -/
theorem entriesNamed_remove_of_ne (mp : LoggerMap) (name d : List Char) (hd : d ≠ name) :
    LoggerMap.entriesNamed (mp.Remove name).2 d = LoggerMap.entriesNamed mp d := by
  unfold LoggerMap.Remove
  dsimp only
  by_cases hfound :
      ((mp.getD (LoggerMap.GetBucketIndex name) []).any (fun e => decide (e.1 = name))) = true
  · rw [if_pos hfound]
    unfold LoggerMap.entriesNamed
    rw [List.map_set]
    have hfix :
        ((mp.getD (LoggerMap.GetBucketIndex name) []).eraseP
            (fun e => decide (e.1 = name))).filter (fun e => decide (e.1 = d))
        = (mp.getD (LoggerMap.GetBucketIndex name) []).filter (fun e => decide (e.1 = d)) := by
      apply filter_eraseP_of_disjoint
      intro a ha
      have ha1 : a.1 = name := by simpa using ha
      have hnd : ¬ name = d := fun hc => hd hc.symm
      simp [ha1, hnd]
    rw [hfix]
    rw [← getD_map (fun chain : List LoggerEntry => chain.filter (fun e => decide (e.1 = d)))
      mp (LoggerMap.GetBucketIndex name) []]
    rw [set_getD_self]
  · rw [if_neg hfound]

/-- C10.  `LogManager::RemoveLogger` leaves the registry unchanged when
the manager is not `Running` or the name equals the stored default logger
name; and for every name and every manager, the registry entries carrying
the default logger's name are preserved — the default logger is never
removable through `RemoveLogger`. -/
theorem c10_removelogger_frame (m : LogManager) (name : List Char) :
    ((m.state ≠ LogManagerState.Running ∨ AtomicString.Load m.defaultLoggerName = name) →
      LogManager.RemoveLogger m name = m)
    ∧ LoggerMap.entriesNamed (LogManager.RemoveLogger m name).loggerMap
        (AtomicString.Load m.defaultLoggerName)
      = LoggerMap.entriesNamed m.loggerMap (AtomicString.Load m.defaultLoggerName) := by
  constructor
  · intro h
    unfold LogManager.RemoveLogger
    rcases h with h | h
    · simp [h]
    · have : AtomicString.Compare m.defaultLoggerName name = true := by
        unfold AtomicString.Compare AtomicString.Load at *
        simp [h]
      simp [this]
  · unfold LogManager.RemoveLogger
    by_cases hg : (!decide (m.state = LogManagerState.Running)
        || AtomicString.Compare m.defaultLoggerName name) = true
    · simp [hg]
    · simp only [hg, if_false]
      have hd : AtomicString.Load m.defaultLoggerName ≠ name := by
        intro hc
        apply hg
        have : AtomicString.Compare m.defaultLoggerName name = true := by
          unfold AtomicString.Compare AtomicString.Load at *
          simp [hc]
        simp [this]
      exact entriesNamed_remove_of_ne m.loggerMap name _ hd

/-- Witness for C10: a manager that is already shut down is left
unchanged. -/
theorem c10_witness :
    LogManager.RemoveLogger
      { state := LogManagerState.ShutDown, threadPool := false, loggerMap := [[(['m'], 0)]],
        globalSinks := none, defaultLoggerName := AtomicString.Store ['m'] } ['x']
    = { state := LogManagerState.ShutDown, threadPool := false, loggerMap := [[(['m'], 0)]],
        globalSinks := none, defaultLoggerName := AtomicString.Store ['m'] } :=
  (c10_removelogger_frame _ ['x']).1 (Or.inl (by decide))

/-! ## C6: hazard-pointer cleanup frees exactly the unprotected nodes -/

theorem mem_hp_snapshot (slots : List (Option Nat)) (p : Nat) :
    (p ∈ (slots.filterMap id).mergeSort (fun a b => decide (a ≤ b))) ↔ some p ∈ slots := by
  rw [List.mem_mergeSort, List.mem_filterMap]
  constructor
  · rintro ⟨a, ha, hap⟩
    rwa [show a = some p from hap] at ha
  · intro h
    exact ⟨some p, h, rfl⟩

/-- C6.  `TryCleanup` deletes exactly those retired nodes whose pointer is
not held in any non-null hazard slot at the time of the snapshot, and
re-appends to the retired list exactly the retired nodes whose pointer is
found in the snapshot; in particular a pointer protected by a hazard slot
is never freed by the cleanup. -/
theorem c6_hazard_cleanup (dom : HazardPointerDomain) :
    (∀ n, n ∈ (HazardPointerDomain.TryCleanup dom).2 ↔
      (n ∈ dom.retiredList ∧ ¬ some n.pointer ∈ dom.hazardPointers))
    ∧ (∀ n, n ∈ (HazardPointerDomain.TryCleanup dom).1.retiredList ↔
      (n ∈ dom.retiredList ∧ some n.pointer ∈ dom.hazardPointers))
    ∧ (∀ p, some p ∈ dom.hazardPointers →
        ∀ n ∈ (HazardPointerDomain.TryCleanup dom).2, n.pointer ≠ p) := by
  unfold HazardPointerDomain.TryCleanup
  dsimp only
  by_cases hemp : dom.retiredList.isEmpty = true
  · rw [if_pos hemp]
    have hnil : dom.retiredList = [] := List.isEmpty_iff.mp hemp
    refine ⟨?_, ?_, ?_⟩
    · intro n
      simp [hnil]
    · intro n
      simp [hnil]
    · intro p _ n hn
      simp at hn
  · rw [if_neg hemp]
    have hkey : ∀ q : Nat,
        binary_search ((dom.hazardPointers.filterMap id).mergeSort
          (fun a b => decide (a ≤ b))) q = true ↔ some q ∈ dom.hazardPointers := by
      intro q
      unfold binary_search
      rw [show (((dom.hazardPointers.filterMap id).mergeSort
          (fun a b => decide (a ≤ b))).contains q = true)
        = (q ∈ (dom.hazardPointers.filterMap id).mergeSort (fun a b => decide (a ≤ b)))
        from propext List.elem_iff]
      exact mem_hp_snapshot dom.hazardPointers q
    refine ⟨?_, ?_, ?_⟩
    · intro n
      rw [List.mem_reverse, List.mem_filter]
      simp only [Bool.not_eq_true']
      constructor
      · rintro ⟨hmem, hbs⟩
        refine ⟨hmem, fun hp => ?_⟩
        rw [(hkey n.pointer).mpr hp] at hbs
        exact Bool.noConfusion hbs
      · rintro ⟨hmem, hp⟩
        refine ⟨hmem, ?_⟩
        cases hbs : binary_search ((dom.hazardPointers.filterMap id).mergeSort
            (fun a b => decide (a ≤ b))) n.pointer
        · rfl
        · exact absurd ((hkey n.pointer).mp hbs) hp
    · intro n
      rw [List.mem_reverse, List.mem_filter]
      constructor
      · rintro ⟨hmem, hbs⟩
        exact ⟨hmem, (hkey n.pointer).mp hbs⟩
      · rintro ⟨hmem, hp⟩
        exact ⟨hmem, (hkey n.pointer).mpr hp⟩
    · intro p hp n hn hpn
      rw [List.mem_reverse, List.mem_filter] at hn
      rcases hn with ⟨_, hbs⟩
      rw [Bool.not_eq_true'] at hbs
      rw [(hkey n.pointer).mpr (hpn ▸ hp)] at hbs
      exact Bool.noConfusion hbs

/-! ## List index helper lemmas for the pool proofs -/

theorem getD_set_eq {α : Type _} (l : List α) (i : Nat) (x d : α) (h : i < l.length) :
    (l.set i x).getD i d = x := by
  rw [List.getD_eq_getElem?_getD, List.getElem?_set]
  simp [h]

theorem getD_set_neq {α : Type _} (l : List α) (i j : Nat) (x d : α) (h : i ≠ j) :
    (l.set i x).getD j d = l.getD j d := by
  rw [List.getD_eq_getElem?_getD, List.getElem?_set_ne h, ← List.getD_eq_getElem?_getD]

theorem getD_take {α : Type _} (l : List α) (n i : Nat) (d : α) (h : i < n) :
    (l.take n).getD i d = l.getD i d := by
  rw [List.getD_eq_getElem?_getD, List.getElem?_take, if_pos h, ← List.getD_eq_getElem?_getD]

theorem getD_append_lt {α : Type _} (l t : List α) (i : Nat) (d : α) (h : i < l.length) :
    (l ++ t).getD i d = l.getD i d := by
  rw [List.getD_eq_getElem?_getD, List.getElem?_append, if_pos h, ← List.getD_eq_getElem?_getD]

theorem getD_append_len {α : Type _} (l : List α) (x d : α) :
    (l ++ [x]).getD l.length d = x := by
  rw [List.getD_eq_getElem?_getD, List.getElem?_append]
  simp

theorem getD_replicate {α : Type _} (n i : Nat) (x d : α) (h : i < n) :
    (List.replicate n x).getD i d = x := by
  rw [List.getD_eq_getElem?_getD, List.getElem?_replicate, if_pos h]
  rfl

theorem findIdx?_some_lt {α : Type _} (p : α → Bool) :
    ∀ (l : List α) (i : Nat), l.findIdx? p = some i → i < l.length := by
  intro l
  induction l with
  | nil => intro i h; simp [List.findIdx?_nil] at h
  | cons a t ih =>
    intro i h
    rw [List.findIdx?_cons, List.findIdx?_succ] at h
    by_cases hpa : p a = true
    · rw [if_pos hpa] at h
      cases h
      simp
    · rw [if_neg hpa] at h
      rw [Option.map_eq_some'] at h
      obtain ⟨j, hj, rfl⟩ := h
      have := ih j hj
      simp only [List.length_cons]
      omega

theorem findIdx?_some_getD {α : Type _} (p : α → Bool) (d : α) :
    ∀ (l : List α) (i : Nat), l.findIdx? p = some i → p (l.getD i d) = true := by
  intro l
  induction l with
  | nil => intro i h; simp [List.findIdx?_nil] at h
  | cons a t ih =>
    intro i h
    rw [List.findIdx?_cons, List.findIdx?_succ] at h
    by_cases hpa : p a = true
    · rw [if_pos hpa] at h
      cases h
      simpa using hpa
    · rw [if_neg hpa] at h
      rw [Option.map_eq_some'] at h
      obtain ⟨j, hj, rfl⟩ := h
      simpa [List.getD] using ih j hj

theorem all_true_findIdx?_none (l : List Bool) (h : ∀ b ∈ l, b = true) :
    l.findIdx? (fun b => !b) = none := by
  rw [List.findIdx?_eq_none_iff]
  intro x hx
  rw [h x hx]
  rfl

/-! ## Pool state algebra -/

theorem getLastD_eq_getD {α : Type _} (l : List α) (d : α) :
    l.getLastD d = l.getD (l.length - 1) d := by
  rw [List.getLastD_eq_getLast?, List.getD_eq_getElem?_getD, List.getLast?_eq_getElem?]

theorem setMsg_localUsed (s : MessagePool) (loc : MsgLoc) (m : Message) :
    (s.setMsg loc m).localUsed = s.localUsed := by
  cases loc <;> rfl

theorem setMsg_localUsedCount (s : MessagePool) (loc : MsgLoc) (m : Message) :
    (s.setMsg loc m).localUsedCount = s.localUsedCount := by
  cases loc <;> rfl

theorem setMsg_localMessages_length (s : MessagePool) (loc : MsgLoc) (m : Message) :
    (s.setMsg loc m).localMessages.length = s.localMessages.length := by
  cases loc <;> simp [MessagePool.setMsg]

theorem setMsg_chunks_length (s : MessagePool) (loc : MsgLoc) (m : Message) :
    (s.setMsg loc m).chunks.length = s.chunks.length := by
  cases loc <;> simp [MessagePool.setMsg]

theorem setMsg_chunk_used (s : MessagePool) (loc : MsgLoc) (m : Message) (c : Nat) :
    ((s.setMsg loc m).chunks.getD c default).used = (s.chunks.getD c default).used := by
  cases loc with
  | tlc i => rfl
  | shared c' j =>
    show ((s.chunks.set c' _).getD c default).used = _
    by_cases hcc : c' = c
    · subst hcc
      by_cases hc' : c' < s.chunks.length
      · rw [getD_set_eq _ _ _ _ hc']
      · rw [List.set_eq_of_length_le (Nat.le_of_not_lt hc')]
    · rw [getD_set_neq _ _ _ _ _ hcc]

theorem setMsg_chunk_objects_length (s : MessagePool) (loc : MsgLoc) (m : Message) (c : Nat) :
    ((s.setMsg loc m).chunks.getD c default).objects.length
      = (s.chunks.getD c default).objects.length := by
  cases loc with
  | tlc i => rfl
  | shared c' j =>
    show (((s.chunks.set c' _).getD c default).objects).length = _
    by_cases hcc : c' = c
    · subst hcc
      by_cases hc' : c' < s.chunks.length
      · rw [getD_set_eq _ _ _ _ hc']
        simp
      · rw [List.set_eq_of_length_le (Nat.le_of_not_lt hc')]
    · rw [getD_set_neq _ _ _ _ _ hcc]

theorem usedAt_setMsg (s : MessagePool) (loc : MsgLoc) (m : Message) (loc' : MsgLoc) :
    (s.setMsg loc m).usedAt loc' = s.usedAt loc' := by
  cases loc' with
  | tlc i =>
    show (s.setMsg loc m).localUsed.getD i true = _
    rw [setMsg_localUsed]
    rfl
  | shared c j =>
    show ((s.setMsg loc m).chunks.getD c default).used.getD j true = _
    rw [setMsg_chunk_used]
    rfl

theorem getMsg_setMsg_self (s : MessagePool) (loc : MsgLoc) (m : Message)
    (h : s.locInRange loc) : (s.setMsg loc m).getMsg loc = m := by
  cases loc with
  | tlc i =>
    exact getD_set_eq _ _ _ _ h.1
  | shared c j =>
    show ((s.chunks.set c _).getD c default).objects.getD j _ = m
    rw [getD_set_eq _ _ _ _ h.1]
    exact getD_set_eq _ _ _ _ h.2.1

theorem getMsg_setMsg_ne (s : MessagePool) (loc : MsgLoc) (m : Message) (loc' : MsgLoc)
    (h : loc' ≠ loc) : (s.setMsg loc m).getMsg loc' = s.getMsg loc' := by
  cases loc with
  | tlc i =>
    cases loc' with
    | tlc i' =>
      have hii : i ≠ i' := fun hc => h (by rw [hc])
      exact getD_set_neq _ _ _ _ _ hii
    | shared c' j' => rfl
  | shared c j =>
    cases loc' with
    | tlc i' => rfl
    | shared c' j' =>
      show ((s.chunks.set c _).getD c' default).objects.getD j' _ = _
      by_cases hcc : c = c'
      · subst hcc
        have hjj : j ≠ j' := by
          intro hc
          exact h (by rw [hc])
        by_cases hc : c < s.chunks.length
        · rw [getD_set_eq _ _ _ _ hc]
          show ((s.chunks.getD c default).objects.set j m).getD j' _ = _
          rw [getD_set_neq _ _ _ _ _ hjj]
          rfl
        · rw [List.set_eq_of_length_le (Nat.le_of_not_lt hc)]
          rfl
      · rw [getD_set_neq _ _ _ _ _ hcc]
        rfl

theorem getD_mem {α : Type _} (l : List α) (n : Nat) (d : α) (h : n < l.length) :
    l.getD n d ∈ l := by
  rw [List.getD_eq_getElem?_getD, List.getElem?_eq_getElem h]
  exact List.getElem_mem h

theorem claimShared_localUsed (s : MessagePool) (c j : Nat) (b : Bool) :
    (s.claimShared c j b).localUsed = s.localUsed := by
  unfold MessagePool.claimShared
  dsimp only
  split
  · split <;> rfl
  · rfl

theorem claimShared_localMessages (s : MessagePool) (c j : Nat) (b : Bool) :
    (s.claimShared c j b).localMessages = s.localMessages := by
  unfold MessagePool.claimShared
  dsimp only
  split
  · split <;> rfl
  · rfl

theorem claimShared_chunks (s : MessagePool) (c j : Nat) (b : Bool) :
    (s.claimShared c j b).chunks
      = s.chunks.set c { s.chunks.getD c default with
          used := (s.chunks.getD c default).used.set j true } := by
  unfold MessagePool.claimShared
  dsimp only
  split
  · split <;> rfl
  · rfl

theorem claimShared_chunks_length (s : MessagePool) (c j : Nat) (b : Bool) :
    (s.claimShared c j b).chunks.length = s.chunks.length := by
  rw [claimShared_chunks]
  simp

theorem claimShared_chunk_objects (s : MessagePool) (c j : Nat) (b : Bool) (c' : Nat) :
    ((s.claimShared c j b).chunks.getD c' default).objects
      = (s.chunks.getD c' default).objects := by
  rw [claimShared_chunks]
  by_cases hcc : c = c'
  · subst hcc
    by_cases hc : c < s.chunks.length
    · rw [getD_set_eq _ _ _ _ hc]
    · rw [List.set_eq_of_length_le (Nat.le_of_not_lt hc)]
  · rw [getD_set_neq _ _ _ _ _ hcc]

theorem claimShared_chunk_used_ne (s : MessagePool) (c j : Nat) (b : Bool) (c' : Nat)
    (h : c ≠ c') :
    ((s.claimShared c j b).chunks.getD c' default).used
      = (s.chunks.getD c' default).used := by
  rw [claimShared_chunks, getD_set_neq _ _ _ _ _ h]

theorem claimShared_chunk_used_self (s : MessagePool) (c j : Nat) (b : Bool)
    (hc : c < s.chunks.length) :
    ((s.claimShared c j b).chunks.getD c default).used
      = (s.chunks.getD c default).used.set j true := by
  rw [claimShared_chunks, getD_set_eq _ _ _ _ hc]

theorem getMsg_claimShared (s : MessagePool) (c j : Nat) (b : Bool) (loc : MsgLoc) :
    (s.claimShared c j b).getMsg loc = s.getMsg loc := by
  cases loc with
  | tlc i =>
    show (s.claimShared c j b).localMessages.getD i _ = _
    rw [claimShared_localMessages]
    rfl
  | shared c' j' =>
    show ((s.claimShared c j b).chunks.getD c' default).objects.getD j' _ = _
    rw [claimShared_chunk_objects]
    rfl

theorem usedAt_claimShared_self (s : MessagePool) (c j : Nat) (b : Bool)
    (hc : c < s.chunks.length) (hj : j < (s.chunks.getD c default).used.length) :
    (s.claimShared c j b).usedAt (MsgLoc.shared c j) = true := by
  show ((s.claimShared c j b).chunks.getD c default).used.getD j true = true
  rw [claimShared_chunk_used_self _ _ _ _ hc, getD_set_eq _ _ _ _ hj]

theorem usedAt_claimShared_ne (s : MessagePool) (c j : Nat) (b : Bool) (loc' : MsgLoc)
    (h : loc' ≠ MsgLoc.shared c j) :
    (s.claimShared c j b).usedAt loc' = s.usedAt loc' := by
  cases loc' with
  | tlc i =>
    show (s.claimShared c j b).localUsed.getD i true = _
    rw [claimShared_localUsed]
    rfl
  | shared c' j' =>
    show ((s.claimShared c j b).chunks.getD c' default).used.getD j' true = _
    by_cases hcc : c = c'
    · subst hcc
      have hjj : j ≠ j' := by
        intro hc
        exact h (by rw [hc])
      by_cases hc : c < s.chunks.length
      · rw [claimShared_chunk_used_self _ _ _ _ hc, getD_set_neq _ _ _ _ _ hjj]
        rfl
      · rw [claimShared_chunks, List.set_eq_of_length_le (Nat.le_of_not_lt hc)]
        rfl
    · rw [claimShared_chunk_used_ne _ _ _ _ _ hcc]
      rfl

theorem acquireTlc_some (s : MessagePool) (i : Nat) (s1 : MessagePool)
    (h : s.AcquireFromThreadLocalCache = some (i, s1)) :
    i < s.localUsed.length ∧ s.localUsed.getD i true = false
    ∧ s1 = { s with
        localUsed := s.localUsed.set i true
        localUsedCount := s.localUsedCount + 1 } := by
  unfold MessagePool.AcquireFromThreadLocalCache at h
  cases hf : s.localUsed.findIdx? (fun b => !b) with
  | none => rw [hf] at h; exact Option.noConfusion h
  | some i' =>
    rw [hf] at h
    injection h with h
    injection h with h1 h2
    subst h1
    refine ⟨findIdx?_some_lt _ _ _ hf, ?_, h2.symm⟩
    have := findIdx?_some_getD (fun b => !b) true _ _ hf
    rwa [Bool.not_eq_true'] at this

theorem acquireTlc_none_of_noFree (s : MessagePool) (h : ∀ b ∈ s.localUsed, b = true) :
    s.AcquireFromThreadLocalCache = none := by
  unfold MessagePool.AcquireFromThreadLocalCache
  rw [all_true_findIdx?_none _ h]

theorem findFree_some (ch : Chunk) (limit j : Nat) (h : ch.findFree limit = some j) :
    j < ch.used.length ∧ j < limit ∧ ch.used.getD j true = false := by
  unfold Chunk.findFree at h
  have h1 := findIdx?_some_lt _ _ _ h
  have h2 := findIdx?_some_getD (fun b => !b) true _ _ h
  rw [List.length_take] at h1
  have hjl : j < limit := lt_of_lt_of_le h1 (min_le_left _ _)
  have hju : j < ch.used.length := lt_of_lt_of_le h1 (min_le_right _ _)
  rw [getD_take _ _ _ _ hjl, Bool.not_eq_true'] at h2
  exact ⟨hju, hjl, h2⟩

theorem findFree_none_of_all_true (ch : Chunk) (limit : Nat)
    (h : ∀ b ∈ ch.used, b = true) : ch.findFree limit = none := by
  unfold Chunk.findFree
  apply all_true_findIdx?_none
  intro b hb
  exact h b (List.take_subset _ _ hb)

theorem scanChunksFrom_some (chunks : List Chunk) :
    ∀ (count start c j : Nat),
      MessagePool.scanChunksFrom chunks start count = some (c, j) →
      c < chunks.length ∧ j < (chunks.getD c default).used.length ∧ j < 16
        ∧ (chunks.getD c default).used.getD j true = false := by
  intro count
  induction count with
  | zero => intro start c j h; exact Option.noConfusion h
  | succ k ih =>
    intro start c j h
    unfold MessagePool.scanChunksFrom at h
    dsimp only at h
    cases hf : (chunks.getD (start % chunks.length) default).findFree
        (min (chunks.getD (start % chunks.length) default).size 16) with
    | some j' =>
      rw [hf] at h
      injection h with h
      injection h with h1 h2
      subst h1
      subst h2
      obtain ⟨hju, hjl, hfree⟩ := findFree_some _ _ _ hf
      have hlen : chunks.length ≠ 0 := by
        intro hc
        rw [List.length_eq_zero] at hc
        subst hc
        simp only [List.getD] at hju
        rw [show ([] : List Chunk).get? (start % ([] : List Chunk).length) = none from rfl] at hju
        simp [show (default : Chunk).used = [] from rfl] at hju
      refine ⟨Nat.mod_lt _ (Nat.pos_of_ne_zero hlen), hju,
        lt_of_lt_of_le hjl (min_le_right _ _), hfree⟩
    | none =>
      rw [hf] at h
      exact ih (start + 1) c j h

theorem scanChunksFrom_none_of_noFree (chunks : List Chunk)
    (h : ∀ ch ∈ chunks, ∀ b ∈ ch.used, b = true) :
    ∀ (count start : Nat), MessagePool.scanChunksFrom chunks start count = none := by
  intro count
  induction count with
  | zero => intro start; rfl
  | succ k ih =>
    intro start
    unfold MessagePool.scanChunksFrom
    dsimp only
    have hnone : (chunks.getD (start % chunks.length) default).findFree
        (min (chunks.getD (start % chunks.length) default).size 16) = none := by
      by_cases hl : start % chunks.length < chunks.length
      · exact findFree_none_of_all_true _ _ (h _ (getD_mem _ _ _ hl))
      · have : chunks.getD (start % chunks.length) default = default := by
          rw [List.getD_eq_getElem?_getD,
            List.getElem?_eq_none (Nat.le_of_not_lt hl)]
          rfl
        rw [this]
        rfl
    rw [hnone]
    exact ih (start + 1)

theorem scanAllChunks_some :
    ∀ (chunks : List Chunk) (c j : Nat),
      MessagePool.scanAllChunks chunks = some (c, j) →
      c < chunks.length ∧ j < (chunks.getD c default).used.length
        ∧ (chunks.getD c default).used.getD j true = false := by
  intro chunks
  induction chunks with
  | nil => intro c j h; exact Option.noConfusion h
  | cons ch rest ih =>
    intro c j h
    unfold MessagePool.scanAllChunks at h
    cases hf : ch.used.findIdx? (fun b => !b) with
    | some j0 =>
      rw [hf] at h
      injection h with h
      injection h with h1 h2
      subst h1
      subst h2
      have hlt := findIdx?_some_lt _ _ _ hf
      have hget := findIdx?_some_getD (fun b => !b) true _ _ hf
      rw [Bool.not_eq_true'] at hget
      exact ⟨by simp, hlt, hget⟩
    | none =>
      rw [hf] at h
      cases hr : MessagePool.scanAllChunks rest with
      | some cj =>
        obtain ⟨c0, j0⟩ := cj
        rw [hr] at h
        injection h with h
        injection h with h1 h2
        subst h1
        subst h2
        obtain ⟨hc0, hj0, hfree⟩ := ih c0 j0 hr
        refine ⟨by simpa using Nat.succ_lt_succ hc0, ?_, ?_⟩
        · simpa [List.getD] using hj0
        · simpa [List.getD] using hfree
      | none =>
        rw [hr] at h
        exact Option.noConfusion h

theorem scanAllChunks_none_of_noFree :
    ∀ (chunks : List Chunk), (∀ ch ∈ chunks, ∀ b ∈ ch.used, b = true) →
      MessagePool.scanAllChunks chunks = none := by
  intro chunks
  induction chunks with
  | nil => intro _; rfl
  | cons ch rest ih =>
    intro h
    unfold MessagePool.scanAllChunks
    rw [all_true_findIdx?_none _ (h ch (by simp))]
    rw [ih (fun ch' hch' => h ch' (by simp [hch']))]

theorem activate_getMsg_self (s : MessagePool) (loc : MsgLoc) (h : s.locInRange loc) :
    (s.activate loc).getMsg loc
      = { s.getMsg loc with state := MessageState.Active, refCount := 1 } := by
  unfold MessagePool.activate
  exact getMsg_setMsg_self _ _ _ h

theorem activate_getMsg_ne (s : MessagePool) (loc loc' : MsgLoc) (h : loc' ≠ loc) :
    (s.activate loc).getMsg loc' = s.getMsg loc' := by
  unfold MessagePool.activate
  exact getMsg_setMsg_ne _ _ _ _ h

theorem activate_usedAt (s : MessagePool) (loc loc' : MsgLoc) :
    (s.activate loc).usedAt loc' = s.usedAt loc' := by
  unfold MessagePool.activate
  exact usedAt_setMsg _ _ _ _

theorem activate_localUsed (s : MessagePool) (loc : MsgLoc) :
    (s.activate loc).localUsed = s.localUsed := by
  unfold MessagePool.activate
  exact setMsg_localUsed _ _ _

theorem activate_localMessages_length (s : MessagePool) (loc : MsgLoc) :
    (s.activate loc).localMessages.length = s.localMessages.length := by
  unfold MessagePool.activate
  exact setMsg_localMessages_length _ _ _

theorem activate_chunks_length (s : MessagePool) (loc : MsgLoc) :
    (s.activate loc).chunks.length = s.chunks.length := by
  unfold MessagePool.activate
  exact setMsg_chunks_length _ _ _

theorem activate_chunk_used (s : MessagePool) (loc : MsgLoc) (c : Nat) :
    ((s.activate loc).chunks.getD c default).used = (s.chunks.getD c default).used := by
  unfold MessagePool.activate
  exact setMsg_chunk_used _ _ _ _

theorem activate_chunk_objects_length (s : MessagePool) (loc : MsgLoc) (c : Nat) :
    ((s.activate loc).chunks.getD c default).objects.length
      = (s.chunks.getD c default).objects.length := by
  unfold MessagePool.activate
  exact setMsg_chunk_objects_length _ _ _ _

/-- Specification of the common tail of the thread-local acquisition
paths: after claiming free cache slot `i` and storing `Active`/refcount 1,
the pool is still well-shaped, the claimed slot is in use and holds an
active singly-referenced message, and (when every free slot held a reset
message) the claimed message's data fields are reset and the free-slot
invariant is maintained. -/
theorem claim_activate_tlc (s s1 : MessagePool) (hs : PoolShape s) (i : Nat)
    (hi : i < s.localUsed.length) (hfree : s.localUsed.getD i true = false)
    (h1 : s1 = { s with
        localUsed := s.localUsed.set i true
        localUsedCount := s.localUsedCount + 1 }) :
    PoolShape (s1.activate (MsgLoc.tlc i))
    ∧ (s1.activate (MsgLoc.tlc i)).locInRange (MsgLoc.tlc i)
    ∧ ((s1.activate (MsgLoc.tlc i)).getMsg (MsgLoc.tlc i)).state = MessageState.Active
    ∧ ((s1.activate (MsgLoc.tlc i)).getMsg (MsgLoc.tlc i)).refCount = 1
    ∧ (s1.activate (MsgLoc.tlc i)).usedAt (MsgLoc.tlc i) = true
    ∧ (FreeSlotsReset s →
        DataReset ((s1.activate (MsgLoc.tlc i)).getMsg (MsgLoc.tlc i))
        ∧ FreeSlotsReset (s1.activate (MsgLoc.tlc i))) := by
  have hlen := hs.1
  have hobj := hs.2.1
  have hpos := hs.2.2.1
  have hne := hs.2.2.2
  have hiM : i < s.localMessages.length := by rw [hlen]; exact hi
  have e1 : s1.localMessages = s.localMessages := by rw [h1]
  have e2 : s1.localUsed = s.localUsed.set i true := by rw [h1]
  have e3 : s1.chunks = s.chunks := by rw [h1]
  have hrange1 : s1.locInRange (MsgLoc.tlc i) := by
    refine ⟨?_, ?_⟩
    · show i < s1.localMessages.length
      rw [e1]
      exact hiM
    · show i < s1.localUsed.length
      rw [e2]
      simpa using hi
  have hact := activate_getMsg_self s1 (MsgLoc.tlc i) hrange1
  refine ⟨⟨?_, ?_, ?_, ?_⟩, ⟨?_, ?_⟩, ?_, ?_, ?_, ?_⟩
  · rw [activate_localMessages_length, activate_localUsed, e1, e2]
    simpa using hlen
  · intro c hc
    rw [activate_chunks_length, e3] at hc
    rw [activate_chunk_objects_length, activate_chunk_used, e3]
    exact hobj c hc
  · intro c hc
    rw [activate_chunks_length, e3] at hc
    rw [activate_chunk_objects_length, e3]
    exact hpos c hc
  · intro hnil
    apply hne
    have h0 := activate_chunks_length s1 (MsgLoc.tlc i)
    rw [hnil, e3] at h0
    exact List.length_eq_zero.mp h0.symm
  · rw [activate_localMessages_length, e1]
    exact hiM
  · rw [activate_localUsed, e2]
    simpa using hi
  · rw [hact]
  · rw [hact]
  · rw [activate_usedAt]
    show s1.localUsed.getD i true = true
    rw [e2]
    exact getD_set_eq _ _ _ _ hi
  · intro hfsr
    have hreset := hfsr.1 i hi hfree
    have hgetS1 : s1.getMsg (MsgLoc.tlc i) = s.localMessages.getD i {} := by
      show s1.localMessages.getD i {} = _
      rw [e1]
    refine ⟨?_, ?_, ?_⟩
    · rw [hact, hgetS1]
      exact hreset.1
    · intro i' hi' hfree'
      rw [activate_localUsed, e2] at hi' hfree'
      have hi'0 : i' < s.localUsed.length := by simpa using hi'
      have hii' : i ≠ i' := by
        intro hc
        subst hc
        rw [getD_set_eq _ _ _ _ hi] at hfree'
        exact Bool.noConfusion hfree'
      have hfree0 : s.localUsed.getD i' true = false := by
        rw [getD_set_neq _ _ _ _ _ hii'] at hfree'
        exact hfree'
      show IsResetMsg ((s1.activate (MsgLoc.tlc i)).getMsg (MsgLoc.tlc i'))
      rw [activate_getMsg_ne _ _ _ (fun hc => hii' (by injection hc with h0; rw [h0]))]
      show IsResetMsg (s1.localMessages.getD i' {})
      rw [e1]
      exact hfsr.1 i' hi'0 hfree0
    · intro c hc j hj hfree'
      rw [activate_chunks_length, e3] at hc
      rw [activate_chunk_used, e3] at hj hfree'
      show IsResetMsg ((s1.activate (MsgLoc.tlc i)).getMsg (MsgLoc.shared c j))
      rw [activate_getMsg_ne _ _ _ (fun hc2 => MsgLoc.noConfusion hc2)]
      show IsResetMsg ((s1.chunks.getD c default).objects.getD j {})
      rw [e3]
      exact hfsr.2 c hc j hj hfree'

/-- Specification of the common tail of the shared acquisition paths:
after claiming free slot `j` of chunk `c` (with or without the peak-usage
statistics update) and storing `Active`/refcount 1, the same bundle of
facts holds as for the thread-local path. -/
theorem claim_activate_shared (s : MessagePool) (hs : PoolShape s) (c j : Nat) (b : Bool)
    (hc : c < s.chunks.length) (hj : j < (s.chunks.getD c default).used.length)
    (hfree : (s.chunks.getD c default).used.getD j true = false) :
    PoolShape ((s.claimShared c j b).activate (MsgLoc.shared c j))
    ∧ ((s.claimShared c j b).activate (MsgLoc.shared c j)).locInRange (MsgLoc.shared c j)
    ∧ (((s.claimShared c j b).activate (MsgLoc.shared c j)).getMsg
        (MsgLoc.shared c j)).state = MessageState.Active
    ∧ (((s.claimShared c j b).activate (MsgLoc.shared c j)).getMsg
        (MsgLoc.shared c j)).refCount = 1
    ∧ ((s.claimShared c j b).activate (MsgLoc.shared c j)).usedAt (MsgLoc.shared c j) = true
    ∧ (FreeSlotsReset s →
        DataReset (((s.claimShared c j b).activate (MsgLoc.shared c j)).getMsg
          (MsgLoc.shared c j))
        ∧ FreeSlotsReset ((s.claimShared c j b).activate (MsgLoc.shared c j))) := by
  have hlen := hs.1
  have hobj := hs.2.1
  have hpos := hs.2.2.1
  have hne := hs.2.2.2
  have hjO : j < (s.chunks.getD c default).objects.length := by
    rw [hobj c hc]; exact hj
  have hcS : c < (s.claimShared c j b).chunks.length := by
    rw [claimShared_chunks_length]; exact hc
  have hrange1 : (s.claimShared c j b).locInRange (MsgLoc.shared c j) := by
    refine ⟨hcS, ?_, ?_⟩
    · show j < (((s.claimShared c j b).chunks.getD c default).objects).length
      rw [claimShared_chunk_objects]
      exact hjO
    · show j < (((s.claimShared c j b).chunks.getD c default).used).length
      rw [claimShared_chunk_used_self _ _ _ _ hc]
      simpa using hj
  have hact := activate_getMsg_self _ (MsgLoc.shared c j) hrange1
  have hgetOld : (s.claimShared c j b).getMsg (MsgLoc.shared c j)
      = s.getMsg (MsgLoc.shared c j) := getMsg_claimShared _ _ _ _ _
  refine ⟨⟨?_, ?_, ?_, ?_⟩, ⟨?_, ?_, ?_⟩, ?_, ?_, ?_, ?_⟩
  · rw [activate_localMessages_length, activate_localUsed, claimShared_localMessages,
      claimShared_localUsed]
    exact hlen
  · intro c' hc'
    rw [activate_chunks_length, claimShared_chunks_length] at hc'
    rw [activate_chunk_objects_length, activate_chunk_used, claimShared_chunk_objects]
    by_cases hcc : c = c'
    · subst hcc
      rw [claimShared_chunk_used_self _ _ _ _ hc, List.length_set]
      exact hobj c hc'
    · rw [claimShared_chunk_used_ne _ _ _ _ _ hcc]
      exact hobj c' hc'
  · intro c' hc'
    rw [activate_chunks_length, claimShared_chunks_length] at hc'
    rw [activate_chunk_objects_length, claimShared_chunk_objects]
    exact hpos c' hc'
  · intro hnil
    apply hne
    have h0 := activate_chunks_length (s.claimShared c j b) (MsgLoc.shared c j)
    rw [hnil, claimShared_chunks_length] at h0
    exact List.length_eq_zero.mp h0.symm
  · rw [activate_chunks_length]
    exact hcS
  · rw [activate_chunk_objects_length, claimShared_chunk_objects]
    exact hjO
  · show j < (((s.claimShared c j b).activate (MsgLoc.shared c j)).chunks.getD
      c default).used.length
    rw [activate_chunk_used, claimShared_chunk_used_self _ _ _ _ hc]
    simpa using hj
  · rw [hact]
  · rw [hact]
  · rw [activate_usedAt]
    exact usedAt_claimShared_self _ _ _ _ hc hj
  · intro hfsr
    have hreset := hfsr.2 c hc j hj hfree
    refine ⟨?_, ?_, ?_⟩
    · rw [hact, hgetOld]
      exact hreset.1
    · intro i' hi' hfree'
      rw [activate_localUsed, claimShared_localUsed] at hi' hfree'
      show IsResetMsg (((s.claimShared c j b).activate (MsgLoc.shared c j)).getMsg
        (MsgLoc.tlc i'))
      rw [activate_getMsg_ne _ _ _ (fun hc2 => MsgLoc.noConfusion hc2)]
      show IsResetMsg ((s.claimShared c j b).localMessages.getD i' {})
      rw [claimShared_localMessages]
      exact hfsr.1 i' hi' hfree'
    · intro c' hc' j' hj' hfree'
      rw [activate_chunks_length, claimShared_chunks_length] at hc'
      rw [activate_chunk_used] at hj' hfree'
      show IsResetMsg (((s.claimShared c j b).activate (MsgLoc.shared c j)).getMsg
        (MsgLoc.shared c' j'))
      by_cases hcc : c = c'
      · subst hcc
        rw [claimShared_chunk_used_self _ _ _ _ hc] at hj' hfree'
        have hjj : j ≠ j' := by
          intro hc2
          subst hc2
          rw [getD_set_eq _ _ _ _ hj] at hfree'
          exact Bool.noConfusion hfree'
        rw [getD_set_neq _ _ _ _ _ hjj] at hfree'
        have hj'0 : j' < (s.chunks.getD c default).used.length := by simpa using hj'
        have hne2 : MsgLoc.shared c j' ≠ MsgLoc.shared c j := by
          intro hcon
          injection hcon with e1 e2
          exact hjj e2.symm
        rw [activate_getMsg_ne _ _ _ hne2, getMsg_claimShared]
        exact hfsr.2 c hc' j' hj'0 hfree'
      · rw [claimShared_chunk_used_ne _ _ _ _ _ hcc] at hj' hfree'
        have hne2 : MsgLoc.shared c' j' ≠ MsgLoc.shared c j := by
          intro hcon
          injection hcon with e1 e2
          exact hcc e1.symm
        rw [activate_getMsg_ne _ _ _ hne2, getMsg_claimShared]
        exact hfsr.2 c' hc' j' hj' hfree'

/-- Full specification of `MessagePool::Acquire` on a well-shaped pool:
the result is a well-shaped pool and an in-range location whose message is
`Active` with refcount 1 and whose slot is marked in use; when every free
slot held a reset message beforehand, the acquired message's data fields
are reset and the free-slot invariant still holds. -/
theorem Acquire_spec (s : MessagePool) (hs : PoolShape s) :
    PoolShape (s.Acquire).2
    ∧ (s.Acquire).2.locInRange (s.Acquire).1
    ∧ ((s.Acquire).2.getMsg (s.Acquire).1).state = MessageState.Active
    ∧ ((s.Acquire).2.getMsg (s.Acquire).1).refCount = 1
    ∧ (s.Acquire).2.usedAt (s.Acquire).1 = true
    ∧ (FreeSlotsReset s →
        DataReset ((s.Acquire).2.getMsg (s.Acquire).1)
        ∧ FreeSlotsReset (s.Acquire).2) := by
  unfold MessagePool.Acquire
  cases htlc : s.AcquireFromThreadLocalCache with
  | some is1 =>
    obtain ⟨i, s1⟩ := is1
    obtain ⟨hi, hfree, hs1⟩ := acquireTlc_some s i s1 htlc
    exact claim_activate_tlc s s1 hs i hi hfree hs1
  | none =>
    dsimp only
    cases hscan : MessagePool.scanChunksFrom s.chunks (s.nextChunkIndex % s.chunks.length)
        s.chunks.length with
    | some cj =>
      obtain ⟨c, j⟩ := cj
      obtain ⟨hc, hj, _, hfree⟩ := scanChunksFrom_some s.chunks _ _ _ _ hscan
      exact claim_activate_shared { s with nextChunkIndex := s.nextChunkIndex + 1 }
        hs c j true hc hj hfree
    | none =>
      cases htlc2 : MessagePool.AcquireFromThreadLocalCache
          { s with nextChunkIndex := s.nextChunkIndex + 1 } with
      | some is2 =>
        obtain ⟨i, s2⟩ := is2
        obtain ⟨hi, hfree, hs2⟩ := acquireTlc_some _ i s2 htlc2
        exact claim_activate_tlc { s with nextChunkIndex := s.nextChunkIndex + 1 }
          s2 hs i hi hfree hs2
      | none =>
        cases hall : MessagePool.scanAllChunks s.chunks with
        | some cj =>
          obtain ⟨c, j⟩ := cj
          obtain ⟨hc, hj, hfree⟩ := scanAllChunks_some s.chunks _ _ hall
          exact claim_activate_shared { s with nextChunkIndex := s.nextChunkIndex + 1 }
            hs c j false hc hj hfree
        | none =>
          dsimp only
          have hlenpos : 0 < s.chunks.length := by
            cases hl : s.chunks with
            | nil => exact absurd hl hs.2.2.2
            | cons a t => simp
          have hnpos : 0 < (s.chunks.getLastD default).size * GROWTH_FACTOR := by
            rw [getLastD_eq_getD]
            have := hs.2.2.1 (s.chunks.length - 1) (by omega)
            show 0 < (s.chunks.getD (s.chunks.length - 1) default).objects.length
              * GROWTH_FACTOR
            have hg : 0 < GROWTH_FACTOR := by decide
            exact Nat.mul_pos this hg
          have hc2 : (s.chunks
              ++ [MessagePool.freshChunk ((s.chunks.getLastD default).size * GROWTH_FACTOR)]).length - 1
              = s.chunks.length := by simp
          rw [hc2]
          have hs2 : PoolShape { s with
              nextChunkIndex := s.nextChunkIndex + 1
              chunks := s.chunks
                ++ [MessagePool.freshChunk ((s.chunks.getLastD default).size * GROWTH_FACTOR)]
              capacity := s.capacity
                + (s.chunks.getLastD default).size * GROWTH_FACTOR } := by
            refine ⟨hs.1, ?_, ?_, ?_⟩
            · intro c' hc'
              show ((s.chunks ++ _).getD c' default).objects.length
                = ((s.chunks ++ _).getD c' default).used.length
              by_cases hlt : c' < s.chunks.length
              · rw [getD_append_lt _ _ _ _ hlt]
                exact hs.2.1 c' hlt
              · have hceq : c' = s.chunks.length := by
                  revert hc'
                  show c' < (s.chunks ++ _).length → _
                  rw [List.length_append]
                  intro hc'
                  simp at hc'
                  omega
                subst hceq
                rw [getD_append_len]
                show (List.replicate _ _).length = (List.replicate _ _).length
                simp
            · intro c' hc'
              show 0 < ((s.chunks ++ _).getD c' default).objects.length
              by_cases hlt : c' < s.chunks.length
              · rw [getD_append_lt _ _ _ _ hlt]
                exact hs.2.2.1 c' hlt
              · have hceq : c' = s.chunks.length := by
                  revert hc'
                  show c' < (s.chunks ++ _).length → _
                  rw [List.length_append]
                  intro hc'
                  simp at hc'
                  omega
                subst hceq
                rw [getD_append_len]
                show 0 < (List.replicate _ _).length
                simpa using hnpos
            · show s.chunks ++ _ ≠ []
              simp
          have hcB : s.chunks.length < ({ s with
              nextChunkIndex := s.nextChunkIndex + 1
              chunks := s.chunks
                ++ [MessagePool.freshChunk ((s.chunks.getLastD default).size * GROWTH_FACTOR)]
              capacity := s.capacity
                + (s.chunks.getLastD default).size * GROWTH_FACTOR } : MessagePool).chunks.length := by
            show s.chunks.length < (s.chunks ++ _).length
            simp
          have hjB : 0 < (({ s with
              nextChunkIndex := s.nextChunkIndex + 1
              chunks := s.chunks
                ++ [MessagePool.freshChunk ((s.chunks.getLastD default).size * GROWTH_FACTOR)]
              capacity := s.capacity
                + (s.chunks.getLastD default).size * GROWTH_FACTOR } : MessagePool).chunks.getD
              s.chunks.length default).used.length := by
            show 0 < ((s.chunks ++ _).getD s.chunks.length default).used.length
            rw [getD_append_len]
            show 0 < (List.replicate _ false).length
            simpa using hnpos
          have hfB : (({ s with
              nextChunkIndex := s.nextChunkIndex + 1
              chunks := s.chunks
                ++ [MessagePool.freshChunk ((s.chunks.getLastD default).size * GROWTH_FACTOR)]
              capacity := s.capacity
                + (s.chunks.getLastD default).size * GROWTH_FACTOR } : MessagePool).chunks.getD
              s.chunks.length default).used.getD 0 true = false := by
            show ((s.chunks ++ _).getD s.chunks.length default).used.getD 0 true = false
            rw [getD_append_len]
            show (List.replicate _ false).getD 0 true = false
            rw [getD_replicate]
            simpa using hnpos
          have hmain := claim_activate_shared _ hs2 s.chunks.length 0 true hcB hjB hfB
          refine ⟨hmain.1, hmain.2.1, hmain.2.2.1, hmain.2.2.2.1, hmain.2.2.2.2.1, ?_⟩
          intro hfsr
          apply hmain.2.2.2.2.2
          refine ⟨hfsr.1, ?_⟩
          intro c' hc' j' hj' hfree'
          have hc'2 : c' < (s.chunks
              ++ [MessagePool.freshChunk ((s.chunks.getLastD default).size * GROWTH_FACTOR)]).length :=
            hc'
          have hj'2 : j' < ((s.chunks
              ++ [MessagePool.freshChunk ((s.chunks.getLastD default).size * GROWTH_FACTOR)]).getD
              c' default).used.length := hj'
          have hfree'2 : ((s.chunks
              ++ [MessagePool.freshChunk ((s.chunks.getLastD default).size * GROWTH_FACTOR)]).getD
              c' default).used.getD j' true = false := hfree'
          show IsResetMsg (((s.chunks
              ++ [MessagePool.freshChunk ((s.chunks.getLastD default).size * GROWTH_FACTOR)]).getD
              c' default).objects.getD j' {})
          by_cases hlt : c' < s.chunks.length
          · rw [getD_append_lt _ _ _ _ hlt] at hj'2 hfree'2 ⊢
            exact hfsr.2 c' hlt j' hj'2 hfree'2
          · have hceq : c' = s.chunks.length := by
              rw [List.length_append] at hc'2
              simp at hc'2
              omega
            subst hceq
            rw [getD_append_len] at hj'2 ⊢
            have hj'3 : j' < (s.chunks.getLastD default).size * GROWTH_FACTOR := by
              have : (MessagePool.freshChunk
                  ((s.chunks.getLastD default).size * GROWTH_FACTOR)).used.length
                  = (s.chunks.getLastD default).size * GROWTH_FACTOR := by
                show (List.replicate _ false).length = _
                simp
              rw [this] at hj'2
              exact hj'2
            show IsResetMsg ((List.replicate _ ({} : Message)).getD j' {})
            rw [getD_replicate _ _ _ _ hj'3]
            exact ⟨⟨rfl, rfl, rfl, rfl, rfl⟩, rfl, rfl⟩

theorem getD_default_irrel {α : Type _} (l : List α) (i : Nat) (d d' : α)
    (h : i < l.length) : l.getD i d = l.getD i d' := by
  rw [List.getD_eq_getElem?_getD, List.getD_eq_getElem?_getD, List.getElem?_eq_getElem h]
  rfl

/-- IsResetMsg holds of every freshly reset message. -/
theorem isResetMsg_resetMessage (m : Message) : IsResetMsg (MessagePool.ResetMessage m) :=
  ⟨⟨rfl, rfl, rfl, rfl, rfl⟩, rfl, rfl⟩

/-- Populating an acquired (in-use) message preserves the pool shape, the
free-slot invariant, and the message's `Active`/refcount-1 status. -/
theorem populate_spec (s : MessagePool) (loc : MsgLoc) (p : Payload) (hs : PoolShape s)
    (hv : s.locInRange loc) (hused : s.usedAt loc = true)
    (hst : (s.getMsg loc).state = MessageState.Active)
    (hrc : (s.getMsg loc).refCount = 1) (hfsr : FreeSlotsReset s) :
    PoolShape (s.populate loc p)
    ∧ (s.populate loc p).locInRange loc
    ∧ ((s.populate loc p).getMsg loc).state = MessageState.Active
    ∧ ((s.populate loc p).getMsg loc).refCount = 1
    ∧ FreeSlotsReset (s.populate loc p) := by
  have hget : (s.populate loc p).getMsg loc
      = { s.getMsg loc with
          timestamp := p.timestamp
          name := p.name
          level := p.level
          message := (StringStorage.Create p.text).View
          sourceLocation := p.sourceLocation
          messageStorage := StringStorage.Create p.text
          logger := p.logger
          structuredData := p.structuredData } := by
    unfold MessagePool.populate
    exact getMsg_setMsg_self _ _ _ hv
  have hlu : (s.populate loc p).localUsed = s.localUsed := by
    unfold MessagePool.populate
    exact setMsg_localUsed _ _ _
  have hlML : (s.populate loc p).localMessages.length = s.localMessages.length := by
    unfold MessagePool.populate
    exact setMsg_localMessages_length _ _ _
  have hchL : (s.populate loc p).chunks.length = s.chunks.length := by
    unfold MessagePool.populate
    exact setMsg_chunks_length _ _ _
  have hchU : ∀ c, ((s.populate loc p).chunks.getD c default).used
      = (s.chunks.getD c default).used := by
    intro c
    unfold MessagePool.populate
    exact setMsg_chunk_used _ _ _ _
  have hchOL : ∀ c, ((s.populate loc p).chunks.getD c default).objects.length
      = (s.chunks.getD c default).objects.length := by
    intro c
    unfold MessagePool.populate
    exact setMsg_chunk_objects_length _ _ _ _
  have hgetne : ∀ loc', loc' ≠ loc → (s.populate loc p).getMsg loc' = s.getMsg loc' := by
    intro loc' hne
    unfold MessagePool.populate
    exact getMsg_setMsg_ne _ _ _ _ hne
  refine ⟨⟨?_, ?_, ?_, ?_⟩, ?_, ?_, ?_, ?_⟩
  · rw [hlML, hlu]
    exact hs.1
  · intro c hc
    rw [hchL] at hc
    rw [hchOL, hchU]
    exact hs.2.1 c hc
  · intro c hc
    rw [hchL] at hc
    rw [hchOL]
    exact hs.2.2.1 c hc
  · intro hnil
    apply hs.2.2.2
    have h0 : (s.populate loc p).chunks.length = 0 := by rw [hnil]; rfl
    rw [hchL] at h0
    exact List.length_eq_zero.mp h0
  · cases loc with
    | tlc i =>
      exact ⟨by rw [hlML]; exact hv.1, by rw [hlu]; exact hv.2⟩
    | shared c j =>
      exact ⟨by rw [hchL]; exact hv.1, by rw [hchOL]; exact hv.2.1,
        by rw [hchU]; exact hv.2.2⟩
  · rw [hget]
    exact hst
  · rw [hget]
    exact hrc
  · constructor
    · intro i' hi' hfree'
      rw [hlu] at hi' hfree'
      have hne' : MsgLoc.tlc i' ≠ loc := by
        intro hc
        subst hc
        have hf2 : s.usedAt (MsgLoc.tlc i') = false := hfree'
        rw [hf2] at hused
        exact Bool.noConfusion hused
      show IsResetMsg ((s.populate loc p).getMsg (MsgLoc.tlc i'))
      rw [hgetne _ hne']
      exact hfsr.1 i' hi' hfree'
    · intro c' hc' j' hj' hfree'
      rw [hchL] at hc'
      rw [hchU] at hj' hfree'
      have hne' : MsgLoc.shared c' j' ≠ loc := by
        intro hc
        subst hc
        have hf2 : s.usedAt (MsgLoc.shared c' j') = false := hfree'
        rw [hf2] at hused
        exact Bool.noConfusion hused
      show IsResetMsg ((s.populate loc p).getMsg (MsgLoc.shared c' j'))
      rw [hgetne _ hne']
      exact hfsr.2 c' hc' j' hj' hfree'

theorem setMsg_setMsg (s : MessagePool) (loc : MsgLoc) (a b : Message) :
    (s.setMsg loc a).setMsg loc b = s.setMsg loc b := by
  cases loc with
  | tlc i =>
    unfold MessagePool.setMsg
    dsimp only
    rw [List.set_set]
  | shared c j =>
    unfold MessagePool.setMsg
    dsimp only
    by_cases hc : c < s.chunks.length
    · rw [getD_set_eq _ _ _ _ hc]
      dsimp only
      rw [List.set_set, List.set_set]
    · have hle := Nat.le_of_not_lt hc
      simp only [List.set_eq_of_length_le hle]

theorem setMsg_chunk_objects_self (s : MessagePool) (c j : Nat) (m : Message)
    (hc : c < s.chunks.length) :
    ((s.setMsg (MsgLoc.shared c j) m).chunks.getD c default).objects
      = (s.chunks.getD c default).objects.set j m := by
  unfold MessagePool.setMsg
  dsimp only
  rw [getD_set_eq _ _ _ _ hc]

theorem freeSharedSlot_localUsed (s : MessagePool) (c j : Nat) :
    (s.freeSharedSlot c j).localUsed = s.localUsed := by
  unfold MessagePool.freeSharedSlot
  dsimp only
  split <;> rfl

theorem freeSharedSlot_localMessages (s : MessagePool) (c j : Nat) :
    (s.freeSharedSlot c j).localMessages = s.localMessages := by
  unfold MessagePool.freeSharedSlot
  dsimp only
  split <;> rfl

theorem freeSharedSlot_chunks (s : MessagePool) (c j : Nat) :
    (s.freeSharedSlot c j).chunks
      = s.chunks.set c { s.chunks.getD c default with
          used := (s.chunks.getD c default).used.set j false } := by
  unfold MessagePool.freeSharedSlot
  dsimp only
  split <;> rfl

theorem freeSharedSlot_chunks_length (s : MessagePool) (c j : Nat) :
    (s.freeSharedSlot c j).chunks.length = s.chunks.length := by
  rw [freeSharedSlot_chunks]
  simp

theorem freeSharedSlot_chunk_objects (s : MessagePool) (c j : Nat) (c' : Nat) :
    ((s.freeSharedSlot c j).chunks.getD c' default).objects
      = (s.chunks.getD c' default).objects := by
  rw [freeSharedSlot_chunks]
  by_cases hcc : c = c'
  · subst hcc
    by_cases hc : c < s.chunks.length
    · rw [getD_set_eq _ _ _ _ hc]
    · rw [List.set_eq_of_length_le (Nat.le_of_not_lt hc)]
  · rw [getD_set_neq _ _ _ _ _ hcc]

theorem freeSharedSlot_chunk_used_ne (s : MessagePool) (c j : Nat) (c' : Nat)
    (h : c ≠ c') :
    ((s.freeSharedSlot c j).chunks.getD c' default).used
      = (s.chunks.getD c' default).used := by
  rw [freeSharedSlot_chunks, getD_set_neq _ _ _ _ _ h]

theorem freeSharedSlot_chunk_used_self (s : MessagePool) (c j : Nat)
    (hc : c < s.chunks.length) :
    ((s.freeSharedSlot c j).chunks.getD c default).used
      = (s.chunks.getD c default).used.set j false := by
  rw [freeSharedSlot_chunks, getD_set_eq _ _ _ _ hc]

theorem getMsg_freeSharedSlot (s : MessagePool) (c j : Nat) (loc : MsgLoc) :
    (s.freeSharedSlot c j).getMsg loc = s.getMsg loc := by
  cases loc with
  | tlc i =>
    show (s.freeSharedSlot c j).localMessages.getD i _ = _
    rw [freeSharedSlot_localMessages]
    rfl
  | shared c' j' =>
    show ((s.freeSharedSlot c j).chunks.getD c' default).objects.getD j' _ = _
    rw [freeSharedSlot_chunk_objects]
    rfl

/-- Specification of `MessagePool::Release` on an in-range active message
with a single reference: state and refcount are drained, the message is
reset and its slot freed, preserving the pool shape and the free-slot
invariant. -/
theorem Release_spec (s : MessagePool) (loc : MsgLoc) (hs : PoolShape s)
    (hv : s.locInRange loc)
    (hst : (s.getMsg loc).state = MessageState.Active)
    (hrc : (s.getMsg loc).refCount = 1)
    (hfsr : FreeSlotsReset s) :
    PoolShape (s.Release loc) ∧ FreeSlotsReset (s.Release loc) := by
  cases loc with
  | tlc i =>
    unfold MessagePool.Release
    dsimp only
    rw [if_pos hst]
    rw [getMsg_setMsg_self s (MsgLoc.tlc i) _ hv]
    have hcond : ({ s.getMsg (MsgLoc.tlc i) with
        state := MessageState.Releasing } : Message).refCount = 1 := hrc
    rw [if_pos hcond]
    rw [setMsg_setMsg]
    unfold MessagePool.FinalizeRelease
    rw [getMsg_setMsg_self s (MsgLoc.tlc i) _ hv]
    have hcond2 : ({ ({ s.getMsg (MsgLoc.tlc i) with
        state := MessageState.Releasing } : Message) with
          refCount := 0 } : Message).state = MessageState.Releasing := rfl
    rw [if_pos hcond2]
    unfold MessagePool.TryReleaseToThreadLocalCache
    dsimp only
    rw [getMsg_setMsg_self s (MsgLoc.tlc i) _ hv]
    rw [setMsg_setMsg]
    rw [setMsg_localUsed, setMsg_localUsedCount]
    refine ⟨⟨?_, ?_, ?_, ?_⟩, ?_, ?_⟩
    · rw [setMsg_localMessages_length]
      simpa using hs.1
    · intro c hc
      exact hs.2.1 c hc
    · intro c hc
      exact hs.2.2.1 c hc
    · intro hnil
      exact hs.2.2.2 hnil
    · intro i' hi' hfree'
      have hi'0 : i' < s.localUsed.length := by simpa using hi'
      show IsResetMsg ((s.setMsg (MsgLoc.tlc i) (MessagePool.ResetMessage _)).localMessages.getD
        i' {})
      by_cases hii : i = i'
      · subst hii
        show IsResetMsg ((s.localMessages.set i _).getD i {})
        rw [getD_set_eq _ _ _ _ hv.1]
        exact isResetMsg_resetMessage _
      · have hfree0 : s.localUsed.getD i' true = false := by
          rw [getD_set_neq _ _ _ _ _ hii] at hfree'
          exact hfree'
        show IsResetMsg ((s.localMessages.set i _).getD i' {})
        rw [getD_set_neq _ _ _ _ _ hii]
        exact hfsr.1 i' hi'0 hfree0
    · intro c hc j hj hfree'
      exact hfsr.2 c hc j hj hfree'
  | shared c j =>
    unfold MessagePool.Release
    dsimp only
    rw [if_pos hst]
    rw [getMsg_setMsg_self s (MsgLoc.shared c j) _ hv]
    have hcond : ({ s.getMsg (MsgLoc.shared c j) with
        state := MessageState.Releasing } : Message).refCount = 1 := hrc
    rw [if_pos hcond]
    rw [setMsg_setMsg]
    unfold MessagePool.FinalizeRelease
    rw [getMsg_setMsg_self s (MsgLoc.shared c j) _ hv]
    have hcond2 : ({ ({ s.getMsg (MsgLoc.shared c j) with
        state := MessageState.Releasing } : Message) with
          refCount := 0 } : Message).state = MessageState.Releasing := rfl
    rw [if_pos hcond2]
    unfold MessagePool.TryReleaseToThreadLocalCache
    dsimp only
    have hcondB : c < (s.setMsg (MsgLoc.shared c j)
        { ({ s.getMsg (MsgLoc.shared c j) with state := MessageState.Releasing } : Message) with
          refCount := 0 }).chunks.length
        ∧ j < ((s.setMsg (MsgLoc.shared c j)
            { ({ s.getMsg (MsgLoc.shared c j) with
                state := MessageState.Releasing } : Message) with
              refCount := 0 }).chunks.getD c default).size := by
      constructor
      · rw [setMsg_chunks_length]
        exact hv.1
      · show j < ((s.setMsg (MsgLoc.shared c j) _).chunks.getD c default).objects.length
        rw [setMsg_chunk_objects_length]
        exact hv.2.1
    rw [if_pos hcondB]
    rw [setMsg_setMsg]
    have hfc := freeSharedSlot_chunks_length (s.setMsg (MsgLoc.shared c j)
      (MessagePool.ResetMessage
        { ({ s.getMsg (MsgLoc.shared c j) with state := MessageState.Releasing } : Message) with
          refCount := 0 })) c j
    refine ⟨⟨?_, ?_, ?_, ?_⟩, ?_, ?_⟩
    · show (MessagePool.freeSharedSlot _ c j).localMessages.length
        = (MessagePool.freeSharedSlot _ c j).localUsed.length
      rw [freeSharedSlot_localMessages, freeSharedSlot_localUsed,
        setMsg_localMessages_length, setMsg_localUsed]
      exact hs.1
    · intro c' hc'
      rw [hfc, setMsg_chunks_length] at hc'
      show ((MessagePool.freeSharedSlot _ c j).chunks.getD c' default).objects.length
        = ((MessagePool.freeSharedSlot _ c j).chunks.getD c' default).used.length
      rw [freeSharedSlot_chunk_objects, setMsg_chunk_objects_length]
      by_cases hcc : c = c'
      · subst hcc
        rw [freeSharedSlot_chunk_used_self _ _ _ (by rw [setMsg_chunks_length]; exact hc'),
          List.length_set, setMsg_chunk_used]
        exact hs.2.1 c hc'
      · rw [freeSharedSlot_chunk_used_ne _ _ _ _ hcc, setMsg_chunk_used]
        exact hs.2.1 c' hc'
    · intro c' hc'
      rw [hfc, setMsg_chunks_length] at hc'
      show 0 < ((MessagePool.freeSharedSlot _ c j).chunks.getD c' default).objects.length
      rw [freeSharedSlot_chunk_objects, setMsg_chunk_objects_length]
      exact hs.2.2.1 c' hc'
    · intro hnil
      apply hs.2.2.2
      have h0 : (MessagePool.freeSharedSlot (s.setMsg (MsgLoc.shared c j)
          (MessagePool.ResetMessage
            { ({ s.getMsg (MsgLoc.shared c j) with
                state := MessageState.Releasing } : Message) with
              refCount := 0 })) c j).chunks.length = 0 := by
        rw [hnil]
        rfl
      rw [hfc, setMsg_chunks_length] at h0
      exact List.length_eq_zero.mp h0
    · intro i' hi' hfree'
      have hi'0 : i' < s.localUsed.length := by
        have h2 : i' < (MessagePool.freeSharedSlot (s.setMsg (MsgLoc.shared c j)
            (MessagePool.ResetMessage
              { ({ s.getMsg (MsgLoc.shared c j) with
                  state := MessageState.Releasing } : Message) with
                refCount := 0 })) c j).localUsed.length := hi'
        rw [freeSharedSlot_localUsed, setMsg_localUsed] at h2
        exact h2
      have hfree0 : s.localUsed.getD i' true = false := by
        have h2 : (MessagePool.freeSharedSlot (s.setMsg (MsgLoc.shared c j)
            (MessagePool.ResetMessage
              { ({ s.getMsg (MsgLoc.shared c j) with
                  state := MessageState.Releasing } : Message) with
                refCount := 0 })) c j).localUsed.getD i' true = false := hfree'
        rw [freeSharedSlot_localUsed, setMsg_localUsed] at h2
        exact h2
      show IsResetMsg ((MessagePool.freeSharedSlot _ c j).localMessages.getD i' {})
      rw [freeSharedSlot_localMessages]
      show IsResetMsg ((s.setMsg (MsgLoc.shared c j) (MessagePool.ResetMessage _)).getMsg
        (MsgLoc.tlc i'))
      rw [getMsg_setMsg_ne s (MsgLoc.shared c j) _ (MsgLoc.tlc i')
        (fun hc2 => MsgLoc.noConfusion hc2)]
      exact hfsr.1 i' hi'0 hfree0
    · intro c' hc' j' hj' hfree'
      rw [hfc, setMsg_chunks_length] at hc'
      show IsResetMsg ((MessagePool.freeSharedSlot _ c j).getMsg (MsgLoc.shared c' j'))
      rw [getMsg_freeSharedSlot]
      by_cases hcc : c = c'
      · subst hcc
        have hused' : ((MessagePool.freeSharedSlot (s.setMsg (MsgLoc.shared c j)
            (MessagePool.ResetMessage
              { ({ s.getMsg (MsgLoc.shared c j) with
                  state := MessageState.Releasing } : Message) with
                refCount := 0 })) c j).chunks.getD c default).used
            = ((s.setMsg (MsgLoc.shared c j)
                (MessagePool.ResetMessage
                  { ({ s.getMsg (MsgLoc.shared c j) with
                      state := MessageState.Releasing } : Message) with
                    refCount := 0 })).chunks.getD c default).used.set j false :=
          freeSharedSlot_chunk_used_self _ _ _ (by rw [setMsg_chunks_length]; exact hc')
        rw [hused', setMsg_chunk_used] at hj' hfree'
        by_cases hjj : j = j'
        · subst hjj
          show IsResetMsg ((s.setMsg (MsgLoc.shared c j) (MessagePool.ResetMessage _)).getMsg
            (MsgLoc.shared c j))
          rw [getMsg_setMsg_self s (MsgLoc.shared c j) _ hv]
          exact isResetMsg_resetMessage _
        · rw [getD_set_neq _ _ _ _ _ hjj] at hfree'
          have hj'0 : j' < (s.chunks.getD c default).used.length := by simpa using hj'
          show IsResetMsg ((s.setMsg (MsgLoc.shared c j) (MessagePool.ResetMessage _)).getMsg
            (MsgLoc.shared c j'))
          have hne2 : MsgLoc.shared c j' ≠ MsgLoc.shared c j := by
            intro hcon
            injection hcon with e1 e2
            exact hjj e2.symm
          rw [getMsg_setMsg_ne s (MsgLoc.shared c j) _ (MsgLoc.shared c j') hne2]
          exact hfsr.2 c hc' j' hj'0 hfree'
      · have hused' : ((MessagePool.freeSharedSlot (s.setMsg (MsgLoc.shared c j)
            (MessagePool.ResetMessage
              { ({ s.getMsg (MsgLoc.shared c j) with
                  state := MessageState.Releasing } : Message) with
                refCount := 0 })) c j).chunks.getD c' default).used
            = ((s.setMsg (MsgLoc.shared c j)
                (MessagePool.ResetMessage
                  { ({ s.getMsg (MsgLoc.shared c j) with
                      state := MessageState.Releasing } : Message) with
                    refCount := 0 })).chunks.getD c' default).used :=
          freeSharedSlot_chunk_used_ne _ _ _ _ hcc
        rw [hused', setMsg_chunk_used] at hj' hfree'
        show IsResetMsg ((s.setMsg (MsgLoc.shared c j) (MessagePool.ResetMessage _)).getMsg
          (MsgLoc.shared c' j'))
        have hne2 : MsgLoc.shared c' j' ≠ MsgLoc.shared c j := by
          intro hcon
          injection hcon with e1 e2
          exact hcc e1.symm
        rw [getMsg_setMsg_ne s (MsgLoc.shared c j) _ (MsgLoc.shared c' j') hne2]
        exact hfsr.2 c' hc' j' hj' hfree'

/-! ## C1: acquire, release, acquire returns a reset message -/

/-- C1: for every message payload, executing `MessagePool::Acquire`, then
`MessagePool::Release` on the acquired message (after it was populated),
then `MessagePool::Acquire` again returns a reset message: its name and
message views are empty, its structured data is empty, its level is
`Info`, its logger pointer is null, its state is `Active`, and its
refcount is 1. -/
theorem c1_acquire_release_acquire (s : MessagePool) (p : Payload)
    (hs : PoolShape s) (hfsr : FreeSlotsReset s) :
    DataReset ((acquireReleaseAcquire s p).2.getMsg (acquireReleaseAcquire s p).1)
    ∧ ((acquireReleaseAcquire s p).2.getMsg
        (acquireReleaseAcquire s p).1).state = MessageState.Active
    ∧ ((acquireReleaseAcquire s p).2.getMsg
        (acquireReleaseAcquire s p).1).refCount = 1 := by
  obtain ⟨h1s, h1v, h1st, h1rc, h1u, h1f⟩ := Acquire_spec s hs
  obtain ⟨-, hfsr1⟩ := h1f hfsr
  obtain ⟨h2s, h2v, h2st, h2rc, h2f⟩ :=
    populate_spec (s.Acquire).2 (s.Acquire).1 p h1s h1v h1u h1st h1rc hfsr1
  obtain ⟨h3s, h3f⟩ :=
    Release_spec ((s.Acquire).2.populate (s.Acquire).1 p) (s.Acquire).1 h2s h2v h2st h2rc h2f
  obtain ⟨h4s, h4v, h4st, h4rc, h4u, h4f⟩ :=
    Acquire_spec (((s.Acquire).2.populate (s.Acquire).1 p).Release (s.Acquire).1) h3s
  obtain ⟨hdr2, -⟩ := h4f h3f
  exact ⟨hdr2, h4st, h4rc⟩

/-- Witness for C1 at a concrete two-slot pool and a concrete payload. -/
theorem c1_witness :
    PoolShape examplePool ∧ FreeSlotsReset examplePool
    ∧ (DataReset ((acquireReleaseAcquire examplePool examplePayload).2.getMsg
          (acquireReleaseAcquire examplePool examplePayload).1)
      ∧ ((acquireReleaseAcquire examplePool examplePayload).2.getMsg
          (acquireReleaseAcquire examplePool examplePayload).1).state = MessageState.Active
      ∧ ((acquireReleaseAcquire examplePool examplePayload).2.getMsg
          (acquireReleaseAcquire examplePool examplePayload).1).refCount = 1) :=
  ⟨by decide, by decide,
    c1_acquire_release_acquire examplePool examplePayload (by decide) (by decide)⟩

/-! ## C9: Acquire never fails -/

/-- C9: `MessagePool::Acquire` never reports failure: on every
well-shaped pool it returns a message in `Active` state with refcount 1,
and when no free slot exists it grows the pool with one new chunk of the
last chunk's size times `GROWTH_FACTOR`, claiming that chunk's slot 0. -/
theorem c9_acquire_never_fails (s : MessagePool) (hs : PoolShape s) :
    ((s.Acquire).2.getMsg (s.Acquire).1).state = MessageState.Active
    ∧ ((s.Acquire).2.getMsg (s.Acquire).1).refCount = 1
    ∧ (NoFreeSlot s →
        (s.Acquire).1 = MsgLoc.shared s.chunks.length 0
        ∧ (s.Acquire).2.chunks.length = s.chunks.length + 1
        ∧ ((s.Acquire).2.chunks.getD s.chunks.length default).size
            = (s.chunks.getLastD default).size * GROWTH_FACTOR) := by
  obtain ⟨-, -, hst, hrc, -, -⟩ := Acquire_spec s hs
  refine ⟨hst, hrc, ?_⟩
  intro hnf
  obtain ⟨hl, hcAll⟩ := hnf
  have h1 : s.AcquireFromThreadLocalCache = none := acquireTlc_none_of_noFree s hl
  have h2 : MessagePool.scanChunksFrom s.chunks (s.nextChunkIndex % s.chunks.length)
      s.chunks.length = none := scanChunksFrom_none_of_noFree s.chunks hcAll _ _
  have h3 : MessagePool.AcquireFromThreadLocalCache
      { s with nextChunkIndex := s.nextChunkIndex + 1 } = none :=
    acquireTlc_none_of_noFree _ hl
  have h4 : MessagePool.scanAllChunks s.chunks = none :=
    scanAllChunks_none_of_noFree s.chunks hcAll
  unfold MessagePool.Acquire
  rw [h1]
  dsimp only
  rw [h2]
  dsimp only
  rw [h3]
  dsimp only
  rw [h4]
  dsimp only
  refine ⟨?_, ?_, ?_⟩
  · simp
  · rw [activate_chunks_length, claimShared_chunks_length]
    simp
  · show ((_ : MessagePool).chunks.getD s.chunks.length default).objects.length = _
    rw [activate_chunk_objects_length, claimShared_chunk_objects]
    simp [MessagePool.freshChunk]

/-- Witness for C9 at a concrete fully occupied pool: acquisition grows
the pool by one chunk of double the last chunk's size and claims its
slot 0. -/
theorem c9_witness :
    PoolShape exampleFullPool ∧ NoFreeSlot exampleFullPool
    ∧ ((exampleFullPool.Acquire).1 = MsgLoc.shared 1 0
        ∧ (exampleFullPool.Acquire).2.chunks.length = 2
        ∧ ((exampleFullPool.Acquire).2.chunks.getD 1 default).size = 2) :=
  ⟨by decide, by decide,
    (c9_acquire_never_fails exampleFullPool (by decide)).2.2 (by decide)⟩

/-! ## MessageQueue lemmas (toward C4) -/

theorem window_one (w : Nat) :
    ∀ i, w.testBit i = true ↔ ∃ o < 1, w.testBit (i + o) = true := by
  intro i
  constructor
  · intro hb
    exact ⟨0, Nat.zero_lt_one, by simpa using hb⟩
  · rintro ⟨o, ho, hb⟩
    have ho0 : o = 0 := by omega
    subst ho0
    simpa using hb

theorem orShift_window (w v k : Nat)
    (h : ∀ i, v.testBit i = true ↔ ∃ o < k, w.testBit (i + o) = true) :
    ∀ i, (orShift v k).testBit i = true ↔ ∃ o < k + k, w.testBit (i + o) = true := by
  intro i
  unfold orShift
  simp only [Nat.testBit_or, Nat.testBit_shiftRight, Bool.or_eq_true]
  rw [h i, h (k + i)]
  constructor
  · rintro (⟨o, ho, hb⟩ | ⟨o, ho, hb⟩)
    · exact ⟨o, by omega, hb⟩
    · refine ⟨k + o, by omega, ?_⟩
      rw [show i + (k + o) = k + i + o by omega]
      exact hb
  · rintro ⟨o, ho, hb⟩
    by_cases hok : o < k
    · exact Or.inl ⟨o, hok, hb⟩
    · refine Or.inr ⟨o - k, by omega, ?_⟩
      rw [show k + i + (o - k) = i + o by omega]
      exact hb

theorem smear_window (w : Nat) :
    ∀ i, (orShift (orShift (orShift (orShift (orShift (orShift w 1) 2) 4) 8) 16) 32).testBit i
        = true
      ↔ ∃ o < 64, w.testBit (i + o) = true := by
  have h1 := orShift_window w w 1 (window_one w)
  have h2 := orShift_window w _ 2 h1
  have h4 := orShift_window w _ 4 h2
  have h8 := orShift_window w _ 8 h4
  have h16 := orShift_window w _ 16 h8
  have h32 := orShift_window w _ 32 h16
  exact h32

/-- The top bit of a positive natural is set. -/
theorem testBit_size_pred (w : Nat) (hw : 0 < w) :
    w.testBit (Nat.size w - 1) = true := by
  have hpos : 0 < Nat.size w := Nat.size_pos.mpr hw
  have h1 : 2 ^ (Nat.size w - 1) ≤ w := Nat.lt_size.mp (by omega)
  have h2 : w < 2 ^ Nat.size w := Nat.lt_size_self w
  have hp : 0 < 2 ^ (Nat.size w - 1) := Nat.pos_pow_of_pos _ (by omega)
  rw [Nat.testBit_to_div_mod]
  have hdiv : w / 2 ^ (Nat.size w - 1) = 1 := by
    have hlow : 1 ≤ w / 2 ^ (Nat.size w - 1) := by
      rw [Nat.le_div_iff_mul_le hp]
      simpa using h1
    have hhigh : w / 2 ^ (Nat.size w - 1) < 2 := by
      rw [Nat.div_lt_iff_lt_mul hp]
      have hh : 2 ^ Nat.size w = 2 ^ (Nat.size w - 1) * 2 := by
        rw [← Nat.pow_succ]
        congr 1
        omega
      omega
    omega
  simp [hdiv]

/-- The or-shift cascade fills every bit below the top set bit. -/
theorem smear_eq (w : Nat) (hw : w < 2 ^ 64) :
    orShift (orShift (orShift (orShift (orShift (orShift w 1) 2) 4) 8) 16) 32
      = 2 ^ Nat.size w - 1 := by
  apply Nat.eq_of_testBit_eq
  intro i
  rw [Nat.testBit_two_pow_sub_one]
  by_cases hi : i < Nat.size w
  · rw [decide_eq_true hi]
    apply (smear_window w i).mpr
    have hwpos : 0 < w := by
      rcases Nat.eq_zero_or_pos w with h0 | h0
      · subst h0
        simp [Nat.size_zero] at hi
      · exact h0
    refine ⟨Nat.size w - 1 - i, ?_, ?_⟩
    · have hsz : Nat.size w ≤ 64 := Nat.size_le.mpr hw
      omega
    · rw [show i + (Nat.size w - 1 - i) = Nat.size w - 1 by omega]
      exact testBit_size_pred w hwpos
  · rw [decide_eq_false hi]
    have hnone : ¬ ∃ o < 64, w.testBit (i + o) = true := by
      rintro ⟨o, ho, hb⟩
      have hfalse : w.testBit (i + o) = false := by
        apply Nat.testBit_lt_two_pow
        calc w < 2 ^ Nat.size w := Nat.lt_size_self w
          _ ≤ 2 ^ (i + o) := Nat.pow_le_pow_right (by omega) (by omega)
      rw [hfalse] at hb
      exact Bool.noConfusion hb
    cases hb : (orShift (orShift (orShift (orShift (orShift (orShift w 1) 2) 4) 8) 16)
        32).testBit i with
    | false => rfl
    | true => exact absurd ((smear_window w i).mp hb) hnone

/-- `RoundUpPow2` on arguments in `[1, 2^63]` is the power of two
`2 ^ size (v - 1)`. -/
theorem RoundUpPow2_eq (v : Nat) (h1 : 1 ≤ v) (h2 : v ≤ 2 ^ 63) :
    MessageQueue.RoundUpPow2 v = 2 ^ Nat.size (v - 1) := by
  have hw : (v + (2 ^ 64 - 1)) % 2 ^ 64 = v - 1 := by
    rw [show v + (2 ^ 64 - 1) = (v - 1) + 2 ^ 64 by omega, Nat.add_mod_right]
    exact Nat.mod_eq_of_lt (by omega)
  have hsz : Nat.size (v - 1) ≤ 63 := Nat.size_le.mpr (by omega)
  have hple : 2 ^ Nat.size (v - 1) ≤ 2 ^ 63 := Nat.pow_le_pow_right (by omega) hsz
  unfold MessageQueue.RoundUpPow2
  rw [hw, smear_eq (v - 1) (by omega)]
  have hpp : 0 < 2 ^ Nat.size (v - 1) := Nat.pos_pow_of_pos _ (by omega)
  rw [show 2 ^ Nat.size (v - 1) - 1 + 1 = 2 ^ Nat.size (v - 1) by omega]
  exact Nat.mod_eq_of_lt (by omega)

theorem getD_range (n i : Nat) (h : i < n) : (List.range n).getD i 0 = i := by
  induction n generalizing i with
  | zero => omega
  | succ m ih =>
    rw [List.range_succ]
    by_cases hi : i < m
    · rw [getD_append_lt _ _ _ _ (by simpa using hi)]
      exact ih i hi
    · have : i = m := by omega
      subst this
      have hl : (List.range i).length = i := List.length_range i
      calc (List.range i ++ [i]).getD i 0
          = (List.range i ++ [i]).getD (List.range i).length 0 := by rw [hl]
        _ = i := getD_append_len _ _ _

/-- Two positions of one capacity-wide window with the same slot index
are equal. -/
theorem window_pos_inj (cap a b c : Nat)
    (ha1 : c ≤ a) (ha2 : a < c + cap) (hb1 : c ≤ b) (hb2 : b < c + cap)
    (hm : a % cap = b % cap) : a = b := by
  have ha := Nat.div_add_mod a cap
  have hb := Nat.div_add_mod b cap
  rcases Nat.lt_trichotomy (a / cap) (b / cap) with hq | hq | hq
  · exfalso
    have h1 : cap * (a / cap + 1) ≤ cap * (b / cap) := Nat.mul_le_mul_left cap hq
    rw [Nat.mul_add, Nat.mul_one] at h1
    omega
  · rw [hq, hm] at ha
    omega
  · exfalso
    have h1 : cap * (b / cap + 1) ≤ cap * (a / cap) := Nat.mul_le_mul_left cap hq
    rw [Nat.mul_add, Nat.mul_one] at h1
    omega

/-- `MQInv` ignores the peak-usage statistic. -/
theorem MQInv_congr (k : Nat) (a b : MessageQueue) (hs : a.slots = b.slots)
    (hc : a.capacity = b.capacity) (hp : a.producerIndex = b.producerIndex)
    (hcn : a.consumerIndex = b.consumerIndex) (h : MQInv k a) : MQInv k b := by
  obtain ⟨h1, h2, h3, h4, h5, h6, h7⟩ := h
  rw [hs, hc, hp, hcn] at *
  exact ⟨h1, h2, h3, h4, h5, h6, h7⟩

theorem initQueue_eq (capacity : Nat) (h0 : capacity ≠ 0) :
    MessageQueue.initQueue capacity
      = { slots := (List.range (MessageQueue.RoundUpPow2 capacity)).map
            (fun i => { sequence := i, message := none }),
          capacity := MessageQueue.RoundUpPow2 capacity,
          producerIndex := 0, consumerIndex := 0, peakUsage := 0 } := by
  unfold MessageQueue.initQueue
  rw [if_neg h0]

/-- The constructor establishes the queue invariant for requested
capacities in `[2, 2^63]`. -/
theorem initQueue_inv (capacity : Nat) (h2 : 2 ≤ capacity) (h3 : capacity ≤ 2 ^ 63) :
    MQInv (Nat.size (capacity - 1)) (MessageQueue.initQueue capacity) := by
  rw [initQueue_eq capacity (by omega)]
  have hcap : MessageQueue.RoundUpPow2 capacity = 2 ^ Nat.size (capacity - 1) :=
    RoundUpPow2_eq capacity (by omega) h3
  have hk : 1 ≤ Nat.size (capacity - 1) := Nat.size_pos.mpr (by omega)
  have hcappos : 0 < MessageQueue.RoundUpPow2 capacity := by
    rw [hcap]
    exact Nat.pos_pow_of_pos _ (by omega)
  unfold MQInv
  dsimp only
  refine ⟨hcap, hk, ?_, Nat.le_refl _, by omega, ?_, ?_⟩
  · show ((List.range _).map _).length = _
    simp
  · intro pos hp1 hp2
    show (((List.range (MessageQueue.RoundUpPow2 capacity)).map
        (fun i => ({ sequence := i, message := none } : Slot))).getD
          (pos % MessageQueue.RoundUpPow2 capacity) default).sequence
      = if pos < 0 then pos + 1 else pos
    have hlt : pos < MessageQueue.RoundUpPow2 capacity := by
      simpa using hp2
    rw [Nat.mod_eq_of_lt hlt, if_neg (by omega)]
    have h1 : ((List.range (MessageQueue.RoundUpPow2 capacity)).map
        (fun i => ({ sequence := i, message := none } : Slot))).getD pos default
        = (fun i => ({ sequence := i, message := none } : Slot))
            ((List.range (MessageQueue.RoundUpPow2 capacity)).getD pos 0) :=
      getD_map _ _ _ _
    rw [h1, getD_range _ _ hlt]
  · intro pos hp1 hp2
    omega

theorem updatePeak_slots (q : MessageQueue) : q.updatePeak.slots = q.slots := by
  unfold MessageQueue.updatePeak
  split
  · rfl
  · rfl

theorem updatePeak_capacity (q : MessageQueue) : q.updatePeak.capacity = q.capacity := by
  unfold MessageQueue.updatePeak
  split
  · rfl
  · rfl

theorem updatePeak_producerIndex (q : MessageQueue) :
    q.updatePeak.producerIndex = q.producerIndex := by
  unfold MessageQueue.updatePeak
  split
  · rfl
  · rfl

theorem updatePeak_consumerIndex (q : MessageQueue) :
    q.updatePeak.consumerIndex = q.consumerIndex := by
  unfold MessageQueue.updatePeak
  split
  · rfl
  · rfl

/-- `TryEnqueue` preserves the queue invariant; it advances the producer
index exactly when it reports success and never touches the consumer
index or the capacity. -/
theorem TryEnqueue_inv (k : Nat) (q : MessageQueue) (m : Option Nat) (h : MQInv k q) :
    MQInv k (q.TryEnqueue m).2
    ∧ (q.TryEnqueue m).2.consumerIndex = q.consumerIndex
    ∧ (q.TryEnqueue m).2.producerIndex
        = q.producerIndex + (if (q.TryEnqueue m).1 then 1 else 0)
    ∧ (q.TryEnqueue m).2.capacity = q.capacity := by
  obtain ⟨hcap, hk, hlen, hcp, hpc, hwin, hmsg⟩ := h
  have hcap2 : 2 ≤ q.capacity := by
    rw [hcap]
    calc 2 = 2 ^ 1 := by norm_num
      _ ≤ 2 ^ k := Nat.pow_le_pow_right (by omega) hk
  cases m with
  | none =>
    refine ⟨⟨hcap, hk, hlen, hcp, hpc, hwin, hmsg⟩, rfl, ?_, rfl⟩
    show q.producerIndex = q.producerIndex + (if false then 1 else 0)
    simp
  | some msg =>
    have he : q.TryEnqueue (some msg) = q.enqueueAt msg := rfl
    rw [he]
    unfold MessageQueue.enqueueAt
    have hmask : q.producerIndex &&& q.IndexMask = q.producerIndex % q.capacity := by
      show q.producerIndex &&& (q.capacity - 1) = _
      rw [hcap]
      exact Nat.and_pow_two_sub_one_eq_mod _ _
    rw [hmask]
    by_cases hfull : q.producerIndex = q.consumerIndex + q.capacity
    · have hmod : q.producerIndex % q.capacity = q.consumerIndex % q.capacity := by
        rw [hfull, Nat.add_mod_right]
      have hseq : (q.slots.getD (q.producerIndex % q.capacity) default).sequence
          = q.consumerIndex + 1 := by
        rw [hmod, hwin q.consumerIndex (Nat.le_refl _) (by omega), if_pos (by omega)]
      rw [if_pos (by rw [hseq]; omega)]
      exact ⟨⟨hcap, hk, hlen, hcp, hpc, hwin, hmsg⟩, rfl, by simp, rfl⟩
    · have hplt : q.producerIndex < q.consumerIndex + q.capacity := by omega
      have hseq : (q.slots.getD (q.producerIndex % q.capacity) default).sequence
          = q.producerIndex := by
        rw [hwin q.producerIndex hcp hplt, if_neg (by omega)]
      rw [if_neg (by rw [hseq]; omega)]
      have hidx : q.producerIndex % q.capacity < q.slots.length := by
        rw [hlen]
        exact Nat.mod_lt _ (by omega)
      have hinvNew : MQInv k { q with
          producerIndex := q.producerIndex + 1,
          slots := q.slots.set (q.producerIndex % q.capacity)
            { sequence := q.producerIndex + 1, message := some msg } } := by
        unfold MQInv
        dsimp only
        refine ⟨hcap, hk, ?_, by omega, by omega, ?_, ?_⟩
        · rw [List.length_set]
          exact hlen
        · intro pos h1 h2
          by_cases hpos : pos % q.capacity = q.producerIndex % q.capacity
          · have hpp : pos = q.producerIndex :=
              window_pos_inj q.capacity pos q.producerIndex q.consumerIndex h1 h2 hcp
                hplt hpos
            subst hpp
            rw [getD_set_eq _ _ _ _ hidx]
            rw [if_pos (by omega)]
          · rw [getD_set_neq _ _ _ _ _ (fun he2 => hpos he2.symm)]
            rw [hwin pos h1 h2]
            have hne : pos ≠ q.producerIndex := fun he2 => hpos (by rw [he2])
            by_cases hlt2 : pos < q.producerIndex
            · rw [if_pos hlt2, if_pos (by omega)]
            · rw [if_neg hlt2, if_neg (by omega)]
        · intro pos h1 h2
          by_cases hpos : pos % q.capacity = q.producerIndex % q.capacity
          · have hpp : pos = q.producerIndex :=
              window_pos_inj q.capacity pos q.producerIndex q.consumerIndex h1 (by omega)
                hcp hplt hpos
            subst hpp
            rw [getD_set_eq _ _ _ _ hidx]
            rfl
          · rw [getD_set_neq _ _ _ _ _ (fun he2 => hpos he2.symm)]
            have hne : pos ≠ q.producerIndex := fun he2 => hpos (by rw [he2])
            exact hmsg pos h1 (by omega)
      refine ⟨?_, ?_, ?_, ?_⟩
      · exact MQInv_congr k _ _ (updatePeak_slots _).symm (updatePeak_capacity _).symm
          (updatePeak_producerIndex _).symm (updatePeak_consumerIndex _).symm hinvNew
      · show (MessageQueue.updatePeak _).consumerIndex = q.consumerIndex
        rw [updatePeak_consumerIndex]
      · show (MessageQueue.updatePeak _).producerIndex
          = q.producerIndex + (if true then 1 else 0)
        rw [updatePeak_producerIndex]
        simp
      · show (MessageQueue.updatePeak _).capacity = q.capacity
        rw [updatePeak_capacity]

/-- `TryDequeue` preserves the queue invariant; it advances the consumer
index exactly when it returns a message (and it returns one exactly when
the sequence check passes) and never touches the producer index or the
capacity. -/
theorem TryDequeue_inv (k : Nat) (q : MessageQueue) (h : MQInv k q) :
    MQInv k (q.TryDequeue).2
    ∧ (q.TryDequeue).2.consumerIndex
        = q.consumerIndex + (if (q.TryDequeue).1.isSome then 1 else 0)
    ∧ (q.TryDequeue).2.producerIndex = q.producerIndex
    ∧ (q.TryDequeue).2.capacity = q.capacity := by
  obtain ⟨hcap, hk, hlen, hcp, hpc, hwin, hmsg⟩ := h
  have hcap2 : 2 ≤ q.capacity := by
    rw [hcap]
    calc 2 = 2 ^ 1 := by norm_num
      _ ≤ 2 ^ k := Nat.pow_le_pow_right (by omega) hk
  unfold MessageQueue.TryDequeue
  dsimp only
  have hmask : q.consumerIndex &&& q.IndexMask = q.consumerIndex % q.capacity := by
    show q.consumerIndex &&& (q.capacity - 1) = _
    rw [hcap]
    exact Nat.and_pow_two_sub_one_eq_mod _ _
  rw [hmask]
  by_cases hempty : q.producerIndex = q.consumerIndex
  · have hseq : (q.slots.getD (q.consumerIndex % q.capacity) default).sequence
        = q.consumerIndex := by
      rw [hwin q.consumerIndex (Nat.le_refl _) (by omega), if_neg (by omega)]
    rw [if_pos (by rw [hseq]; omega)]
    refine ⟨⟨hcap, hk, hlen, hcp, hpc, hwin, hmsg⟩, ?_, rfl, rfl⟩
    show q.consumerIndex = q.consumerIndex + (if (none : Option Nat).isSome then 1 else 0)
    simp
  · have hclt : q.consumerIndex < q.producerIndex := by omega
    have hseq : (q.slots.getD (q.consumerIndex % q.capacity) default).sequence
        = q.consumerIndex + 1 := by
      rw [hwin q.consumerIndex (Nat.le_refl _) (by omega), if_pos hclt]
    rw [if_neg (by rw [hseq]; omega)]
    have hsm : (q.slots.getD (q.consumerIndex % q.capacity) default).message.isSome
        = true := hmsg q.consumerIndex (Nat.le_refl _) hclt
    have hidx : q.consumerIndex % q.capacity < q.slots.length := by
      rw [hlen]
      exact Nat.mod_lt _ (by omega)
    refine ⟨?_, ?_, rfl, rfl⟩
    · unfold MQInv
      dsimp only
      refine ⟨hcap, hk, ?_, by omega, by omega, ?_, ?_⟩
      · rw [List.length_set]
        exact hlen
      · intro pos h1 h2
        by_cases hpos : pos % q.capacity = q.consumerIndex % q.capacity
        · have hpp : pos = q.consumerIndex + q.capacity :=
            window_pos_inj q.capacity pos (q.consumerIndex + q.capacity)
              (q.consumerIndex + 1) h1 h2 (by omega) (by omega)
              (by rw [Nat.add_mod_right]; exact hpos)
          subst hpp
          rw [Nat.add_mod_right]
          rw [getD_set_eq _ _ _ _ hidx]
          rw [if_neg (by omega)]
        · rw [getD_set_neq _ _ _ _ _ (fun he2 => hpos he2.symm)]
          have hne : pos ≠ q.consumerIndex + q.capacity :=
            fun he2 => hpos (by rw [he2, Nat.add_mod_right])
          rw [hwin pos (by omega) (by omega)]
      · intro pos h1 h2
        by_cases hpos : pos % q.capacity = q.consumerIndex % q.capacity
        · exfalso
          have hpp : pos = q.consumerIndex + q.capacity :=
            window_pos_inj q.capacity pos (q.consumerIndex + q.capacity)
              (q.consumerIndex + 1) h1 (by omega) (by omega) (by omega)
              (by rw [Nat.add_mod_right]; exact hpos)
          omega
        · rw [getD_set_neq _ _ _ _ _ (fun he2 => hpos he2.symm)]
          exact hmsg pos (by omega) (by omega)
    · show q.consumerIndex + 1 = q.consumerIndex
        + (if (q.slots.getD (q.consumerIndex % q.capacity) default).message.isSome
           then 1 else 0)
      rw [hsm]
      simp

/-- Running any operation list preserves the invariant and advances the
producer (consumer) index by exactly the number of successful enqueues
(dequeues). -/
theorem runOps_inv (k : Nat) (ops : List MQOp) :
    ∀ q : MessageQueue, MQInv k q →
      MQInv k (q.runOps ops).1
      ∧ (q.runOps ops).1.producerIndex = q.producerIndex + (q.runOps ops).2.1
      ∧ (q.runOps ops).1.consumerIndex = q.consumerIndex + (q.runOps ops).2.2
      ∧ (q.runOps ops).1.capacity = q.capacity := by
  induction ops with
  | nil =>
    intro q h
    exact ⟨h, rfl, rfl, rfl⟩
  | cons op rest ih =>
    intro q h
    cases op with
    | enq m =>
      obtain ⟨h1, h2, h3, h4⟩ := TryEnqueue_inv k q m h
      obtain ⟨r1, r2, r3, r4⟩ := ih (q.TryEnqueue m).2 h1
      refine ⟨r1, ?_, ?_, ?_⟩
      · show ((q.TryEnqueue m).2.runOps rest).1.producerIndex
          = q.producerIndex + ((if (q.TryEnqueue m).1 then 1 else 0)
            + ((q.TryEnqueue m).2.runOps rest).2.1)
        rw [r2, h3]
        omega
      · show ((q.TryEnqueue m).2.runOps rest).1.consumerIndex
          = q.consumerIndex + ((q.TryEnqueue m).2.runOps rest).2.2
        rw [r3, h2]
      · show ((q.TryEnqueue m).2.runOps rest).1.capacity = q.capacity
        rw [r4, h4]
    | deq =>
      obtain ⟨h1, h2, h3, h4⟩ := TryDequeue_inv k q h
      obtain ⟨r1, r2, r3, r4⟩ := ih (q.TryDequeue).2 h1
      refine ⟨r1, ?_, ?_, ?_⟩
      · show ((q.TryDequeue).2.runOps rest).1.producerIndex
          = q.producerIndex + ((q.TryDequeue).2.runOps rest).2.1
        rw [r2, h3]
      · show ((q.TryDequeue).2.runOps rest).1.consumerIndex
          = q.consumerIndex + ((if (q.TryDequeue).1.isSome then 1 else 0)
            + ((q.TryDequeue).2.runOps rest).2.2)
        rw [r3, h2]
        omega
      · show ((q.TryDequeue).2.runOps rest).1.capacity = q.capacity
        rw [r4, h4]

/-! ## C4: ring-queue occupancy bound -/

/-- Counterexample for C4 as stated.  A queue constructed with requested
capacity 1 (`RoundUpPow2 1 = 1`) accepts two consecutive `TryEnqueue`
calls with no intervening dequeue: with a single slot the index mask is
0 and each enqueue leaves the slot's sequence equal to the next producer
position, so the fullness check never fails and the number of successful
enqueues minus successful dequeues reaches 2 > capacity = 1. -/
theorem c4_counterexample :
    (MessageQueue.initQueue 1).capacity = 1
    ∧ ((MessageQueue.initQueue 1).runOps [MQOp.enq (some 5), MQOp.enq (some 6)]).2.1 = 2
    ∧ ((MessageQueue.initQueue 1).runOps [MQOp.enq (some 5), MQOp.enq (some 6)]).2.2
        = 0 := by
  refine ⟨rfl, rfl, rfl⟩

/-- C4 amended: for every requested capacity in `[2, 2^63]` (so that the
rounded capacity is a power of two of at least 2) and every operation
sequence, the number of successful enqueues minus the number of
successful dequeues stays between 0 and the queue's capacity. -/
theorem c4_ring_queue_amended (capacity : Nat) (h2 : 2 ≤ capacity)
    (h3 : capacity ≤ 2 ^ 63) (ops : List MQOp) :
    ((MessageQueue.initQueue capacity).runOps ops).2.2
        ≤ ((MessageQueue.initQueue capacity).runOps ops).2.1
    ∧ ((MessageQueue.initQueue capacity).runOps ops).2.1
        ≤ ((MessageQueue.initQueue capacity).runOps ops).2.2
          + (MessageQueue.initQueue capacity).capacity := by
  have h0 := initQueue_inv capacity h2 h3
  obtain ⟨r1, r2, r3, r4⟩ := runOps_inv (Nat.size (capacity - 1)) ops _ h0
  obtain ⟨hcap, hk, hlen, hcp, hpc, hwin, hmsg⟩ := r1
  have hip : (MessageQueue.initQueue capacity).producerIndex = 0 := by
    rw [initQueue_eq _ (by omega)]
  have hic : (MessageQueue.initQueue capacity).consumerIndex = 0 := by
    rw [initQueue_eq _ (by omega)]
  rw [hip] at r2
  rw [hic] at r3
  constructor
  · omega
  · omega

/-- Witness for the amended C4 at requested capacity 2 with an operation
list that hits both a failed enqueue (full queue) and a successful
dequeue. -/
theorem c4_amended_witness :
    2 ≤ 2 ∧ (2 : Nat) ≤ 2 ^ 63
    ∧ (((MessageQueue.initQueue 2).runOps
          [MQOp.enq (some 5), MQOp.enq (some 6), MQOp.enq (some 7), MQOp.deq]).2.2
        ≤ ((MessageQueue.initQueue 2).runOps
          [MQOp.enq (some 5), MQOp.enq (some 6), MQOp.enq (some 7), MQOp.deq]).2.1
      ∧ ((MessageQueue.initQueue 2).runOps
          [MQOp.enq (some 5), MQOp.enq (some 6), MQOp.enq (some 7), MQOp.deq]).2.1
        ≤ ((MessageQueue.initQueue 2).runOps
          [MQOp.enq (some 5), MQOp.enq (some 6), MQOp.enq (some 7), MQOp.deq]).2.2
          + (MessageQueue.initQueue 2).capacity) :=
  ⟨by decide, by decide, c4_ring_queue_amended 2 (by decide) (by decide)
    [MQOp.enq (some 5), MQOp.enq (some 6), MQOp.enq (some 7), MQOp.deq]⟩

/-! ## Priority-queue lemmas (toward C5) -/

/-- The sift-up loop restores the heap order: if the array is heap-ordered
except at the hole, the hole's children are at most the value, and the
hole's children are at most the hole's parent, then writing the value
along the sift-up path yields a heap of the same length. -/
theorem pushHeapLoop_isHeap (fuel : Nat) :
    ∀ (a : List QueueItem) (hole : Nat) (value : QueueItem),
      hole ≤ fuel → hole < a.length →
      (∀ j, 0 < j → j < a.length → j ≠ hole →
        (a.getD j default).priority ≤ (a.getD ((j - 1) / 2) default).priority) →
      (∀ j, 0 < j → j < a.length → (j - 1) / 2 = hole →
        (a.getD j default).priority ≤ value.priority) →
      (∀ j, 0 < j → j < a.length → (j - 1) / 2 = hole → 0 < hole →
        (a.getD j default).priority ≤ (a.getD ((hole - 1) / 2) default).priority) →
      IsHeap (pushHeapLoop fuel a hole value)
      ∧ (pushHeapLoop fuel a hole value).length = a.length := by
  induction fuel with
  | zero =>
    intro a hole value hf hlt h1 h2 h3
    have h0 : hole = 0 := by omega
    subst h0
    simp only [pushHeapLoop]
    constructor
    · intro j hj hjl
      rw [List.length_set] at hjl
      by_cases hp : (j - 1) / 2 = 0
      · rw [hp]
        rw [getD_set_neq _ _ _ _ _ (by omega)]
        rw [getD_set_eq _ _ _ _ hlt]
        exact h2 j hj hjl hp
      · rw [getD_set_neq _ _ _ _ _ (by omega)]
        rw [getD_set_neq _ _ _ _ _ (fun he => hp he.symm)]
        exact h1 j hj hjl (by omega)
    · exact List.length_set _ _ _
  | succ fuel2 ih =>
    intro a hole value hf hlt h1 h2 h3
    simp only [pushHeapLoop]
    by_cases hc : 0 < hole
        ∧ (a.getD ((hole - 1) / 2) default).priority < value.priority
    · rw [if_pos hc]
      obtain ⟨hh0, hcmp⟩ := hc
      have hplt : (hole - 1) / 2 < hole := by omega
      have hplen : (hole - 1) / 2 < a.length := by omega
      have h1n : ∀ j, 0 < j → j < (a.set hole (a.getD ((hole - 1) / 2) default)).length →
          j ≠ (hole - 1) / 2 →
          ((a.set hole (a.getD ((hole - 1) / 2) default)).getD j default).priority
            ≤ ((a.set hole (a.getD ((hole - 1) / 2) default)).getD ((j - 1) / 2)
                default).priority := by
        intro j hj hjl hne
        rw [List.length_set] at hjl
        by_cases hjh : j = hole
        · subst hjh
          rw [getD_set_eq _ _ _ _ hlt]
          rw [getD_set_neq _ _ _ _ _ (by omega)]
        · rw [getD_set_neq _ _ _ _ _ (fun he => hjh he.symm)]
          by_cases hpj : (j - 1) / 2 = hole
          · rw [hpj, getD_set_eq _ _ _ _ hlt]
            exact h3 j hj hjl hpj hh0
          · rw [getD_set_neq _ _ _ _ _ (fun he => hpj he.symm)]
            exact h1 j hj hjl hjh
      have h2n : ∀ j, 0 < j → j < (a.set hole (a.getD ((hole - 1) / 2) default)).length →
          (j - 1) / 2 = (hole - 1) / 2 →
          ((a.set hole (a.getD ((hole - 1) / 2) default)).getD j default).priority
            ≤ value.priority := by
        intro j hj hjl hpj
        rw [List.length_set] at hjl
        by_cases hjh : j = hole
        · subst hjh
          rw [getD_set_eq _ _ _ _ hlt]
          exact Nat.le_of_lt hcmp
        · rw [getD_set_neq _ _ _ _ _ (fun he => hjh he.symm)]
          refine Nat.le_trans ?_ (Nat.le_of_lt hcmp)
          have := h1 j hj hjl hjh
          rw [hpj] at this
          exact this
      have h3n : ∀ j, 0 < j → j < (a.set hole (a.getD ((hole - 1) / 2) default)).length →
          (j - 1) / 2 = (hole - 1) / 2 → 0 < (hole - 1) / 2 →
          ((a.set hole (a.getD ((hole - 1) / 2) default)).getD j default).priority
            ≤ ((a.set hole (a.getD ((hole - 1) / 2) default)).getD
                (((hole - 1) / 2 - 1) / 2) default).priority := by
        intro j hj hjl hpj hp0
        rw [List.length_set] at hjl
        rw [getD_set_neq _ _ _ _ _ (by omega : hole ≠ ((hole - 1) / 2 - 1) / 2)]
        by_cases hjh : j = hole
        · subst hjh
          rw [getD_set_eq _ _ _ _ hlt]
          exact h1 ((j - 1) / 2) hp0 hplen (by omega)
        · rw [getD_set_neq _ _ _ _ _ (fun he => hjh he.symm)]
          refine Nat.le_trans ?_ (h1 ((hole - 1) / 2) hp0 hplen (by omega))
          have := h1 j hj hjl hjh
          rw [hpj] at this
          exact this
      obtain ⟨hih1, hih2⟩ := ih (a.set hole (a.getD ((hole - 1) / 2) default))
        ((hole - 1) / 2) value (by omega) (by rw [List.length_set]; omega) h1n h2n h3n
      refine ⟨hih1, ?_⟩
      rw [hih2, List.length_set]
    · rw [if_neg hc]
      constructor
      · intro j hj hjl
        rw [List.length_set] at hjl
        by_cases hjh : j = hole
        · subst hjh
          rw [getD_set_eq _ _ _ _ hlt]
          rw [getD_set_neq _ _ _ _ _ (by omega : j ≠ (j - 1) / 2)]
          have : ¬ (a.getD ((j - 1) / 2) default).priority < value.priority :=
            fun hlt2 => hc ⟨hj, hlt2⟩
          omega
        · rw [getD_set_neq _ _ _ _ _ (fun he => hjh he.symm)]
          by_cases hpj : (j - 1) / 2 = hole
          · rw [hpj, getD_set_eq _ _ _ _ hlt]
            exact h2 j hj hjl hpj
          · rw [getD_set_neq _ _ _ _ _ (fun he => hpj he.symm)]
            exact h1 j hj hjl hjh
      · exact List.length_set _ _ _

/-- The descent loop of `__adjust_heap` keeps the array heap-ordered
except at the hole (with the hole's children bounded by the hole's
parent), ends with the hole below the last two-child position, and keeps
hole and `secondChild` equal. -/
theorem adjustLoop_spec (fuel : Nat) :
    ∀ (a : List QueueItem) (hole sc len : Nat),
      a.length = len →
      (len - 1) / 2 - sc ≤ fuel →
      hole = sc →
      hole < len →
      (∀ j, 0 < j → j < a.length → j ≠ hole →
        (a.getD j default).priority ≤ (a.getD ((j - 1) / 2) default).priority) →
      (∀ j, 0 < j → j < a.length → (j - 1) / 2 = hole → 0 < hole →
        (a.getD j default).priority ≤ (a.getD ((hole - 1) / 2) default).priority) →
      (adjustLoop fuel a hole sc len).1.length = a.length
      ∧ (adjustLoop fuel a hole sc len).2.1 = (adjustLoop fuel a hole sc len).2.2
      ∧ (adjustLoop fuel a hole sc len).2.1 < len
      ∧ ¬ ((adjustLoop fuel a hole sc len).2.2 < (len - 1) / 2)
      ∧ (∀ j, 0 < j → j < (adjustLoop fuel a hole sc len).1.length →
          j ≠ (adjustLoop fuel a hole sc len).2.1 →
          (((adjustLoop fuel a hole sc len).1.getD j default).priority
            ≤ ((adjustLoop fuel a hole sc len).1.getD ((j - 1) / 2) default).priority))
      ∧ (∀ j, 0 < j → j < (adjustLoop fuel a hole sc len).1.length →
          (j - 1) / 2 = (adjustLoop fuel a hole sc len).2.1 →
          0 < (adjustLoop fuel a hole sc len).2.1 →
          (((adjustLoop fuel a hole sc len).1.getD j default).priority
            ≤ ((adjustLoop fuel a hole sc len).1.getD
                (((adjustLoop fuel a hole sc len).2.1 - 1) / 2) default).priority)) := by
  induction fuel with
  | zero =>
    intro a hole sc len hlen hf heq hlt hD1 hD2
    exact ⟨rfl, heq, hlt, by show ¬ (sc < (len - 1) / 2); omega, hD1, hD2⟩
  | succ fuel2 ih =>
    intro a hole sc len hlen hf heq hlt hD1 hD2
    simp only [adjustLoop]
    by_cases hcc : sc < (len - 1) / 2
    · rw [if_pos hcc]
      have hstep : ∀ sc3 : Nat,
          (sc3 = 2 * (sc + 1) - 1 ∨ sc3 = 2 * (sc + 1)) →
          (a.getD (2 * (sc + 1) - 1) default).priority
              ≤ (a.getD sc3 default).priority →
          (a.getD (2 * (sc + 1)) default).priority
              ≤ (a.getD sc3 default).priority →
          (adjustLoop fuel2 (a.set hole (a.getD sc3 default)) sc3 sc3 len).1.length
              = a.length
          ∧ (adjustLoop fuel2 (a.set hole (a.getD sc3 default)) sc3 sc3 len).2.1
              = (adjustLoop fuel2 (a.set hole (a.getD sc3 default)) sc3 sc3 len).2.2
          ∧ (adjustLoop fuel2 (a.set hole (a.getD sc3 default)) sc3 sc3 len).2.1 < len
          ∧ ¬ ((adjustLoop fuel2 (a.set hole (a.getD sc3 default)) sc3 sc3 len).2.2
              < (len - 1) / 2)
          ∧ (∀ j, 0 < j →
              j < (adjustLoop fuel2 (a.set hole (a.getD sc3 default)) sc3 sc3 len).1.length →
              j ≠ (adjustLoop fuel2 (a.set hole (a.getD sc3 default)) sc3 sc3 len).2.1 →
              (((adjustLoop fuel2 (a.set hole (a.getD sc3 default)) sc3 sc3
                  len).1.getD j default).priority
                ≤ ((adjustLoop fuel2 (a.set hole (a.getD sc3 default)) sc3 sc3
                    len).1.getD ((j - 1) / 2) default).priority))
          ∧ (∀ j, 0 < j →
              j < (adjustLoop fuel2 (a.set hole (a.getD sc3 default)) sc3 sc3 len).1.length →
              (j - 1) / 2
                  = (adjustLoop fuel2 (a.set hole (a.getD sc3 default)) sc3 sc3 len).2.1 →
              0 < (adjustLoop fuel2 (a.set hole (a.getD sc3 default)) sc3 sc3 len).2.1 →
              (((adjustLoop fuel2 (a.set hole (a.getD sc3 default)) sc3 sc3
                  len).1.getD j default).priority
                ≤ ((adjustLoop fuel2 (a.set hole (a.getD sc3 default)) sc3 sc3
                    len).1.getD
                    (((adjustLoop fuel2 (a.set hole (a.getD sc3 default)) sc3 sc3
                        len).2.1 - 1) / 2) default).priority)) := by
        intro sc3 hsc3 hm1 hm2
        have hsc3lt : sc3 < len := by omega
        have hsc3pos : 0 < sc3 := by omega
        have hsc3par : (sc3 - 1) / 2 = sc := by omega
        have hD1n : ∀ j, 0 < j → j < (a.set hole (a.getD sc3 default)).length →
            j ≠ sc3 →
            ((a.set hole (a.getD sc3 default)).getD j default).priority
              ≤ ((a.set hole (a.getD sc3 default)).getD ((j - 1) / 2) default).priority := by
          intro j hj hjl hne
          rw [List.length_set] at hjl
          by_cases hjh : j = hole
          · have hj0 : 0 < hole := hjh ▸ hj
            rw [hjh, getD_set_eq _ _ _ _ (by omega : hole < a.length)]
            rw [getD_set_neq _ _ _ _ _ (by omega : hole ≠ (hole - 1) / 2)]
            exact hD2 sc3 hsc3pos (by omega) (by omega) hj0
          · rw [getD_set_neq _ _ _ _ _ (fun he => hjh he.symm)]
            by_cases hpj : (j - 1) / 2 = hole
            · rw [hpj, getD_set_eq _ _ _ _ (by omega)]
              have hj12 : j = 2 * (sc + 1) - 1 ∨ j = 2 * (sc + 1) := by omega
              rcases hj12 with hj1 | hj2
              · rw [hj1]
                exact hm1
              · rw [hj2]
                exact hm2
            · rw [getD_set_neq _ _ _ _ _ (fun he => hpj he.symm)]
              exact hD1 j hj hjl hjh
        have hD2n : ∀ j, 0 < j → j < (a.set hole (a.getD sc3 default)).length →
            (j - 1) / 2 = sc3 → 0 < sc3 →
            ((a.set hole (a.getD sc3 default)).getD j default).priority
              ≤ ((a.set hole (a.getD sc3 default)).getD ((sc3 - 1) / 2)
                  default).priority := by
          intro j hj hjl hpj hpos
          rw [List.length_set] at hjl
          have hjne : j ≠ hole := by omega
          rw [getD_set_neq _ _ _ _ _ (fun he => hjne he.symm)]
          rw [show (sc3 - 1) / 2 = hole by omega]
          rw [getD_set_eq _ _ _ _ (by omega)]
          have := hD1 j hj hjl hjne
          rw [hpj] at this
          exact this
        obtain ⟨r1, r2, r3, r4, r5, r6⟩ := ih (a.set hole (a.getD sc3 default)) sc3 sc3 len
          (by rw [List.length_set]; exact hlen) (by omega) rfl hsc3lt hD1n hD2n
        refine ⟨?_, r2, r3, r4, r5, r6⟩
        rw [r1, List.length_set]
      by_cases hch : (a.getD (2 * (sc + 1)) default).priority
          < (a.getD (2 * (sc + 1) - 1) default).priority
      · rw [if_pos hch]
        exact hstep (2 * (sc + 1) - 1) (Or.inl rfl) (Nat.le_refl _) (Nat.le_of_lt hch)
      · rw [if_neg hch]
        exact hstep (2 * (sc + 1)) (Or.inr rfl) (Nat.le_of_not_lt hch) (Nat.le_refl _)
    · rw [if_neg hcc]
      exact ⟨rfl, heq, hlt, hcc, hD1, hD2⟩

/-- `__adjust_heap` on a heap-ordered array of length `len` (the hole at
the root) produces a heap of the same length. -/
theorem adjustHeap_isHeap (a : List QueueItem) (len : Nat) (value : QueueItem)
    (hlen : a.length = len) (hpos : 0 < len) (h : IsHeap a) :
    IsHeap (adjustHeap a len value)
    ∧ (adjustHeap a len value).length = a.length := by
  have hD1 : ∀ j, 0 < j → j < a.length → j ≠ 0 →
      (a.getD j default).priority ≤ (a.getD ((j - 1) / 2) default).priority :=
    fun j hj hjl _ => h j hj hjl
  have hD2 : ∀ j, 0 < j → j < a.length → (j - 1) / 2 = 0 → 0 < 0 →
      (a.getD j default).priority ≤ (a.getD ((0 - 1) / 2) default).priority :=
    fun j hj hjl hp h0 => absurd h0 (by omega)
  obtain ⟨r1, r2, r3, r4, r5, r6⟩ :=
    adjustLoop_spec len a 0 0 len hlen (by omega) rfl hpos hD1 hD2
  unfold adjustHeap
  dsimp only
  by_cases hsp : len % 2 = 0 ∧ (adjustLoop len a 0 0 len).2.2 = (len - 2) / 2
  · rw [if_pos hsp]
    obtain ⟨heven, hsc⟩ := hsp
    have hh : (adjustLoop len a 0 0 len).2.1 = (len - 2) / 2 := by rw [r2, hsc]
    have hlen2 : 2 ≤ len := by omega
    rw [hsc, hh]
    rw [show 2 * ((len - 2) / 2 + 1) - 1 = len - 1 by omega]
    have hL1 : (adjustLoop len a 0 0 len).1.length = len := by rw [r1, hlen]
    have hmain := pushHeapLoop_isHeap (len - 1)
      ((adjustLoop len a 0 0 len).1.set ((len - 2) / 2)
        ((adjustLoop len a 0 0 len).1.getD (len - 1) default))
      (len - 1) value (Nat.le_refl _)
      (by rw [List.length_set, hL1]; omega)
      ?_ ?_ ?_
    · obtain ⟨hm1, hm2⟩ := hmain
      refine ⟨hm1, ?_⟩
      rw [hm2, List.length_set, hL1, hlen]
    · -- heap except the new hole len - 1
      intro j hj hjl hne
      rw [List.length_set, hL1] at hjl
      by_cases hjh : j = (len - 2) / 2
      · rw [hjh, getD_set_eq _ _ _ _ (by rw [hL1]; omega)]
        have hj0 : 0 < (len - 2) / 2 := hjh ▸ hj
        rw [getD_set_neq _ _ _ _ _ (by omega : (len - 2) / 2 ≠ ((len - 2) / 2 - 1) / 2)]
        have := r6 (len - 1) (by omega) (by rw [hL1]; omega) (by rw [hh]; omega)
          (by rw [hh]; omega)
        rw [hh] at this
        exact this
      · rw [getD_set_neq _ _ _ _ _ (fun he => hjh he.symm)]
        by_cases hpj : (j - 1) / 2 = (len - 2) / 2
        · exfalso
          omega
        · rw [getD_set_neq _ _ _ _ _ (fun he => hpj he.symm)]
          have := r5 j hj (by rw [hL1]; omega) (by rw [hh]; exact hjh)
          exact this
    · intro j hj hjl hpj
      exfalso
      rw [List.length_set, hL1] at hjl
      omega
    · intro j hj hjl hpj hp0
      exfalso
      rw [List.length_set, hL1] at hjl
      omega
  · rw [if_neg hsp]
    have hL1 : (adjustLoop len a 0 0 len).1.length = len := by rw [r1, hlen]
    have hmain := pushHeapLoop_isHeap (adjustLoop len a 0 0 len).2.1
      (adjustLoop len a 0 0 len).1 (adjustLoop len a 0 0 len).2.1 value
      (Nat.le_refl _) (by rw [hL1]; omega) r5 ?_ ?_
    · obtain ⟨hm1, hm2⟩ := hmain
      refine ⟨hm1, ?_⟩
      rw [hm2, r1]
    · intro j hj hjl hpj
      exfalso
      rw [hL1] at hjl
      rw [r2] at hpj
      omega
    · intro j hj hjl hpj hp0
      exfalso
      rw [hL1] at hjl
      rw [r2] at hpj
      omega

/-- `push` preserves the heap order and grows the array by one. -/
theorem pqPush_isHeap (a : List QueueItem) (x : QueueItem) (h : IsHeap a) :
    IsHeap (pqPush a x) ∧ (pqPush a x).length = a.length + 1 := by
  unfold pqPush
  have hlen1 : (a ++ [x]).length = a.length + 1 := by simp
  have hmain := pushHeapLoop_isHeap a.length (a ++ [x]) ((a ++ [x]).length - 1) x
    (by rw [hlen1]; omega) (by rw [hlen1]; omega) ?_ ?_ ?_
  · exact ⟨hmain.1, by rw [hmain.2, hlen1]⟩
  · intro j hj hjl hne
    rw [hlen1] at hjl
    rw [hlen1] at hne
    have hjlt : j < a.length := by omega
    rw [getD_append_lt _ _ _ _ hjlt, getD_append_lt _ _ _ _ (by omega)]
    exact h j hj hjlt
  · intro j hj hjl hpj
    exfalso
    rw [hlen1] at hjl
    rw [hlen1] at hpj
    omega
  · intro j hj hjl hpj hp0
    exfalso
    rw [hlen1] at hjl
    rw [hlen1] at hpj
    omega

/-- `top`+`pop` returns the root and leaves a heap with one element
fewer. -/
theorem pqPop_spec (a : List QueueItem) (h : IsHeap a) :
    (pqPop a).1 = a.getD 0 default
    ∧ IsHeap (pqPop a).2
    ∧ (pqPop a).2.length = a.length - 1 := by
  cases a with
  | nil =>
    refine ⟨rfl, ?_, rfl⟩
    intro j hj hjl
    have h0 : (pqPop ([] : List QueueItem)).2.length = 0 := rfl
    omega
  | cons x tail =>
    cases tail with
    | nil =>
      refine ⟨rfl, ?_, rfl⟩
      intro j hj hjl
      have h0 : (pqPop [x]).2.length = 0 := rfl
      omega
    | cons y rest =>
      have hlen : (x :: y :: rest).length = rest.length + 2 := by simp
      have htake : ((x :: y :: rest).take ((x :: y :: rest).length - 1)).length
          = (x :: y :: rest).length - 1 := by
        rw [List.length_take]
        omega
      have hheap : IsHeap ((x :: y :: rest).take ((x :: y :: rest).length - 1)) := by
        intro j hj hjl
        rw [htake] at hjl
        rw [getD_take _ _ _ _ (by omega), getD_take _ _ _ _ (by omega)]
        exact h j hj (by omega)
      obtain ⟨ha1, ha2⟩ := adjustHeap_isHeap
        ((x :: y :: rest).take ((x :: y :: rest).length - 1))
        ((x :: y :: rest).length - 1)
        ((x :: y :: rest).getD ((x :: y :: rest).length - 1) default)
        htake (by omega) hheap
      refine ⟨rfl, ha1, ?_⟩
      show (adjustHeap ((x :: y :: rest).take ((x :: y :: rest).length - 1))
          ((x :: y :: rest).length - 1)
          ((x :: y :: rest).getD ((x :: y :: rest).length - 1) default)).length
        = (x :: y :: rest).length - 1
      rw [ha2, htake]

/-- The root of a heap has maximal priority. -/
theorem heap_root_max (a : List QueueItem) (h : IsHeap a) :
    ∀ j, j < a.length → (a.getD j default).priority ≤ (a.getD 0 default).priority := by
  intro j
  induction j using Nat.strong_induction_on with
  | _ j ih =>
    intro hj
    rcases Nat.eq_zero_or_pos j with h0 | h0
    · rw [h0]
    · exact Nat.le_trans (h j h0 hj) (ih ((j - 1) / 2) (by omega) (by omega))

/-- Every member of a list sits at some index (read through `getD`). -/
theorem mem_getD_index (l : List QueueItem) (y : QueueItem) (hy : y ∈ l) :
    ∃ i, i < l.length ∧ l.getD i default = y := by
  induction l with
  | nil => simp at hy
  | cons z t ih =>
    rcases List.mem_cons.mp hy with h1 | h2
    · exact ⟨0, Nat.succ_pos _, h1.symm⟩
    · obtain ⟨i, hi, hg⟩ := ih h2
      exact ⟨i + 1, Nat.succ_lt_succ hi, hg⟩

/-! ## C5: worker priority queue ordering -/

/-- Counterexample for C5 as stated.  Push four equal-priority messages
1, 2, 3, 4 into the worker's `std::priority_queue`; the first two pops
return messages 1 and then 3, not 1 and then 2: the binary heap does not
preserve insertion order within one priority band, so FIFO within a band
fails. -/
theorem c5_counterexample :
    (pqPop (pqPush (pqPush (pqPush (pqPush [] ⟨1, 5⟩) ⟨2, 5⟩) ⟨3, 5⟩) ⟨4, 5⟩)).1.message
        = 1
    ∧ (pqPop (pqPop (pqPush (pqPush (pqPush (pqPush [] ⟨1, 5⟩) ⟨2, 5⟩) ⟨3, 5⟩)
        ⟨4, 5⟩)).2).1.message = 3 := by
  exact ⟨rfl, rfl⟩

/-- C5 amended: the worker's queue is a binary max-heap on priorities:
on every heap-ordered state (and every state built by pushes is one,
since pushes and pops preserve heap order), the popped item is the root
and its priority is maximal among all queued items, so a
higher-priority message is always processed before any lower-priority
message present at the same time; FIFO order inside one priority band is
not maintained (see the counterexample). -/
theorem c5_priority_amended (a : List QueueItem) (x : QueueItem) (h : IsHeap a) :
    (∀ y ∈ a, y.priority ≤ (pqPop a).1.priority)
    ∧ (pqPop a).1 = a.getD 0 default
    ∧ IsHeap (pqPop a).2
    ∧ IsHeap (pqPush a x) := by
  obtain ⟨hp1, hp2, hp3⟩ := pqPop_spec a h
  refine ⟨?_, hp1, hp2, (pqPush_isHeap a x h).1⟩
  intro y hy
  rw [hp1]
  obtain ⟨i, hi, hg⟩ := mem_getD_index a y hy
  rw [← hg]
  exact heap_root_max a h i hi

/-- Witness for the amended C5 at a concrete three-element heap (built by
pushing messages of priorities 2, 7, 5) and a pushed item of priority
9. -/
theorem c5_amended_witness :
    IsHeap [(⟨2, 7⟩ : QueueItem), ⟨1, 2⟩, ⟨3, 5⟩]
    ∧ ((∀ y ∈ [(⟨2, 7⟩ : QueueItem), ⟨1, 2⟩, ⟨3, 5⟩],
          y.priority ≤ (pqPop [(⟨2, 7⟩ : QueueItem), ⟨1, 2⟩, ⟨3, 5⟩]).1.priority)
      ∧ (pqPop [(⟨2, 7⟩ : QueueItem), ⟨1, 2⟩, ⟨3, 5⟩]).1
          = [(⟨2, 7⟩ : QueueItem), ⟨1, 2⟩, ⟨3, 5⟩].getD 0 default
      ∧ IsHeap (pqPop [(⟨2, 7⟩ : QueueItem), ⟨1, 2⟩, ⟨3, 5⟩]).2
      ∧ IsHeap (pqPush [(⟨2, 7⟩ : QueueItem), ⟨1, 2⟩, ⟨3, 5⟩] ⟨4, 9⟩)) :=
  ⟨by decide,
    c5_priority_amended [(⟨2, 7⟩ : QueueItem), ⟨1, 2⟩, ⟨3, 5⟩] ⟨4, 9⟩ (by decide)⟩
